import Mathlib

/-! # ipManage: a sparse four-level octet trie of signed bytes

A shallow embedding of `src/ipManage/ipManage.go`.

* Go `int8` values are `Int`s; every arithmetic result that Go stores in an
  `int8` goes through `wrap8` (two's complement wrap-around).  A `uintptr`
  is a `Nat` and its sums wrap at the width of a reference (`addPtr`).
* `[256]T` is `Fin 256 → T`, a pointer `*[256]T` is `Option (Fin 256 → T)`
  (`none` is `nil`).  The trie is owned top-down, so in-place mutation through
  a pointer is a functional update of the path leading to it.
* Methods on `*ipVisitS` take the store and return the new store next to
  their Go result.
* A `for` loop over the 256 subscripts of an array is `loop256`, a fold of the
  loop body over the subscripts in ascending order.
-/

namespace ipmanage

/-! ## Machine integers -/

/-- Two's complement wrap-around of a mathematical integer into `int8`. -/
def wrap8 (x : Int) : Int := (x + 128) % 256 - 128

/-- The range of a Go `int8`. -/
def isInt8 (x : Int) : Prop := -128 ≤ x ∧ x ≤ 127

instance (x : Int) : Decidable (isInt8 x) := by unfold isInt8; infer_instance

/-! ## Go standard library: `strings.Split` and `strconv.Atoi` -/

/-- The Go call `strings.Split(s, ".")` on the characters of `s`: the pieces
between consecutive dots; a string without dots is its own single piece. -/
def splitDot : List Char → List (List Char)
  | [] => [[]]
  | c :: cs =>
    if c = '.' then [] :: splitDot cs
    else
      match splitDot cs with
      | [] => [[c]]
      | p :: ps => (c :: p) :: ps

/-- Value of a run of decimal digits, most significant first. -/
def digitsVal (ds : List Char) : Nat :=
  ds.foldl (fun acc c => 10 * acc + (c.toNat - 48)) 0

/-- The Go call `strconv.Atoi` on a 64-bit target: an optional sign, then one
or more decimal digits; `none` stands for a non-nil error (syntax error, or a
value outside the range of `int`). -/
def Atoi (s : List Char) : Option Int :=
  let body : Bool × List Char :=
    match s with
    | '+' :: r => (false, r)
    | '-' :: r => (true, r)
    | _ => (false, s)
  if body.2 = [] then none
  else if body.2.all Char.isDigit then
    let v : Int := if body.1 then -(digitsVal body.2 : Int) else (digitsVal body.2 : Int)
    if v < -9223372036854775808 ∨ 9223372036854775807 < v then none else some v
  else none

/-! ## Octet codec -/

/-- The `for i := 0; i < 4; i++` loop of `splitIp` over the remaining parts:
`acc` holds the entries of `ipIntList` filled so far, `none` is the early
`return nil, -1`. -/
def splitIpLoop : List (List Char) → List Int → Option (List Int)
  | [], acc => some acc
  | p :: ps, acc =>
    match Atoi p with
    | none => none
    | some a => if a > 255 ∨ a < 0 then none else splitIpLoop ps (acc ++ [a])

/-- Source `splitIp`: the octets and an error code (`0` ok, `-1` malformed);
the `nil` slice is `[]`. -/
def splitIp (ipStr : String) : List Int × Int :=
  let ipSplit := splitDot ipStr.toList
  if ipSplit.length ≠ 4 then ([], -1)
  else
    match splitIpLoop ipSplit [] with
    | none => ([], -1)
    | some ipIntList =>
      if ipIntList.getD 3 0 = 0 then ([], -1) else (ipIntList, 0)

/-- One part of an address as the specification wants it: it parses as an
integer and the integer lies in `[0,255]`. -/
def specOctet (p : List Char) : Prop :=
  ∃ a : Int, Atoi p = some a ∧ 0 ≤ a ∧ a ≤ 255

/-- Acceptance of an address in the words of the specification: exactly four
dot-separated parts, each an integer in `[0,255]`, the fourth nonzero. -/
def specAccepts (ipStr : String) : Prop :=
  (splitDot ipStr.toList).length = 4 ∧
    (∀ p ∈ splitDot ipStr.toList, specOctet p) ∧
    Atoi ((splitDot ipStr.toList).getD 3 []) ≠ some 0

/-! ## Sparse octet trie -/

/-- A level-4 array `[256]int8`: one leaf per fourth octet. -/
abbrev Leaves := Fin 256 → Int

/-- A level-3 array `[256]*[256]int8`. -/
abbrev Level3 := Fin 256 → Option Leaves

/-- A level-2 array `[256]*[256]*[256]int8`. -/
abbrev Level2 := Fin 256 → Option Level3

/-- The root array `[256]*[256]*[256]*[256]int8`. -/
abbrev Level1 := Fin 256 → Option Level2

/-- Source `ipVisitS`. -/
structure ipVisitS where
  IpList : Level1
  limit : Int
  cycleSecond : Int
  visitLimitBanTime : Int

/-- A freshly declared `var c [256]int8`. -/
def zeroLeaves : Leaves := fun _ => 0

/-- A freshly declared array of nil pointers. -/
def nilArray {α : Type} : Fin 256 → Option α := fun _ => none

/-- The array index `ipIntList[k]` used as a subscript of a 256-wide array.
`splitIp` only returns octets in `[0,255]`, so the bounds check of Go never
fails on them; the reduction modulo 256 is never exercised. -/
def oct (ipIntList : List Int) (k : Nat) : Fin 256 :=
  ⟨(ipIntList.getD k 0).toNat % 256, Nat.mod_lt _ (by decide)⟩

/-- The expression `IpList[a][b][c][d]` guarded by the nil tests of `IsBan`:
`0` when a level on the way is nil. -/
def leafAt (t : Level1) (a b c d : Fin 256) : Int :=
  match t a with
  | none => 0
  | some x =>
    match x b with
    | none => 0
    | some y =>
      match y c with
      | none => 0
      | some z => z d

/-- Source `InitIpVisit` without the ticker it starts: range checks on the
configuration, then a store whose root array is all nil. -/
def InitIpVisit (limit cycleSecond visitLimitBanTime : Int) : Except String ipVisitS :=
  if ¬ (limit ≥ 0 ∧ limit ≤ 127) then
    Except.error "limit的取值范围是 [0,127]"
  else if ¬ (cycleSecond ≥ 1 ∧ cycleSecond ≤ 3600) then
    Except.error "cycleSecond的取值范围是 [1,3600]秒"
  else if ¬ (visitLimitBanTime ≥ 1 ∧ visitLimitBanTime ≤ 127) then
    Except.error "visitLimitBanTime的取值范围是 [1,127]分钟"
  else
    Except.ok
      { IpList := nilArray, limit := limit, cycleSecond := cycleSecond,
        visitLimitBanTime := visitLimitBanTime }

/-- Source `nil2Create`: allocate the missing arrays on the path of
`ipIntList`.  The pointer it returns is `IpList[o0][o1][o2]` of the resulting
store. -/
def nil2Create (i : ipVisitS) (ipIntList : List Int) : ipVisitS :=
  let o0 := oct ipIntList 0
  let o1 := oct ipIntList 1
  let o2 := oct ipIntList 2
  match i.IpList o0 with
  | none =>
    let c : Leaves := zeroLeaves
    let b : Level3 := Function.update nilArray o2 (some c)
    let a : Level2 := Function.update nilArray o1 (some b)
    { i with IpList := Function.update i.IpList o0 (some a) }
  | some a =>
    match a o1 with
    | none =>
      let c : Leaves := zeroLeaves
      let b : Level3 := Function.update nilArray o2 (some c)
      { i with IpList := Function.update i.IpList o0 (some (Function.update a o1 (some b))) }
    | some b =>
      match b o2 with
      | none =>
        let c : Leaves := zeroLeaves
        let a1 : Level2 := Function.update a o1 (some (Function.update b o2 (some c)))
        { i with IpList := Function.update i.IpList o0 (some a1) }
      | some _ => i

/-- The read `thisIP[ipIntList[3]]`, where `thisIP` is the pointer returned
by `nil2Create`.  After `nil2Create` the path is allocated, so the read never
meets a nil level. -/
def thisIPGet (i : ipVisitS) (ipIntList : List Int) : Int :=
  leafAt i.IpList (oct ipIntList 0) (oct ipIntList 1) (oct ipIntList 2) (oct ipIntList 3)

/-- The write `thisIP[ipIntList[3]] = v` through the pointer returned by
`nil2Create`: it lands in the store the pointer points into.  After
`nil2Create` the path is allocated, so the nil cases are never taken. -/
def thisIPSet (i : ipVisitS) (ipIntList : List Int) (v : Int) : ipVisitS :=
  let o0 := oct ipIntList 0
  let o1 := oct ipIntList 1
  let o2 := oct ipIntList 2
  let o3 := oct ipIntList 3
  match i.IpList o0 with
  | none => i
  | some a =>
    match a o1 with
    | none => i
    | some b =>
      match b o2 with
      | none => i
      | some c =>
        let b1 : Level3 := Function.update b o2 (some (Function.update c o3 v))
        let a1 : Level2 := Function.update a o1 (some b1)
        { i with IpList := Function.update i.IpList o0 (some a1) }

/-! ## Store facade -/

/-- Source `Add`. -/
def Add (i : ipVisitS) (ipStr : String) : ipVisitS × Int :=
  let r := splitIp ipStr
  let ipIntList := r.1
  if r.2 ≠ 0 then (i, 0)
  else
    let i1 := nil2Create i ipIntList
    if thisIPGet i1 ipIntList < 0 then (i1, thisIPGet i1 ipIntList)
    else if thisIPGet i1 ipIntList ≥ 0 ∧ thisIPGet i1 ipIntList < i1.limit then
      let i2 := thisIPSet i1 ipIntList (wrap8 (thisIPGet i1 ipIntList + 1))
      (i2, thisIPGet i2 ipIntList)
    else if thisIPGet i1 ipIntList = i1.limit then
      let i2 := thisIPSet i1 ipIntList (wrap8 (-(i1.visitLimitBanTime)))
      (i2, thisIPGet i2 ipIntList)
    else (i1, thisIPGet i1 ipIntList)

/-- Source `AddBanTime`.  The sum compared with `-128` is an `int8` sum and
wraps. -/
def AddBanTime (i : ipVisitS) (ipStr : String) (banTime : Int) : ipVisitS × Int :=
  let r := splitIp ipStr
  let ipIntList := r.1
  if r.2 ≠ 0 then (i, 0)
  else
    let i1 := nil2Create i ipIntList
    if banTime = -128 then
      let i2 := thisIPSet i1 ipIntList banTime
      (i2, thisIPGet i2 ipIntList)
    else if thisIPGet i1 ipIntList ≥ 0 then
      let i2 := thisIPSet i1 ipIntList banTime
      (i2, thisIPGet i2 ipIntList)
    else if thisIPGet i1 ipIntList < 0 then
      if wrap8 (thisIPGet i1 ipIntList + banTime) > -128 then
        let i2 := thisIPSet i1 ipIntList (wrap8 (thisIPGet i1 ipIntList + banTime))
        (i2, thisIPGet i2 ipIntList)
      else
        let i2 := thisIPSet i1 ipIntList (-127)
        (i2, thisIPGet i2 ipIntList)
    else (i1, thisIPGet i1 ipIntList)

/-- Source `IsBan`. -/
def IsBan (i : ipVisitS) (ipStr : String) : Int × Bool :=
  let r := splitIp ipStr
  let ipIntList := r.1
  if r.2 ≠ 0 then (0, false)
  else
    match i.IpList (oct ipIntList 0) with
    | none => (0, true)
    | some a =>
      match a (oct ipIntList 1) with
      | none => (0, true)
      | some b =>
        match b (oct ipIntList 2) with
        | none => (0, true)
        | some c => (c (oct ipIntList 3), true)

/-- The `if` chain of `Add` on one leaf value: what the leaf holds after the
call when it held `v` before. -/
def addVal (limit visitLimitBanTime v : Int) : Int :=
  if v < 0 then v
  else if v ≥ 0 ∧ v < limit then wrap8 (v + 1)
  else if v = limit then wrap8 (-visitLimitBanTime)
  else v

/-- The `if` chain of `AddBanTime` on one leaf value: what the leaf holds
after the call when it held `v` before. -/
def banVal (banTime v : Int) : Int :=
  if banTime = -128 then banTime
  else if v ≥ 0 then banTime
  else if v < 0 then
    if wrap8 (v + banTime) > -128 then wrap8 (v + banTime) else -127
  else v

/-! ## Decay sweep -/

/-- The three counters `second`, `third`, `fourth` of the sweep. -/
structure Counters where
  second : Nat
  third : Nat
  fourth : Nat

/-- A `for idx := 0; idx < 256; idx++` loop threading a state. -/
@[irreducible]
def loop256 {σ : Type} (body : Fin 256 → σ → σ) (init : σ) : σ :=
  (List.finRange 256).foldl (fun st idx => body idx st) init

/-- Body of the innermost loop (over `l`) of the sweep, on the level-4 array
under traversal. -/
def tickL (l : Fin 256) (st : Leaves × Counters) : Leaves × Counters :=
  if st.1 l = 0 then st
  else
    let n : Counters :=
      { second := st.2.second + 1, third := st.2.third + 1, fourth := st.2.fourth + 1 }
    if st.1 l = -128 then (st.1, n)
    else if st.1 l > 0 then (Function.update st.1 l (wrap8 (st.1 l - 1)), n)
    else if st.1 l < 0 then (Function.update st.1 l (wrap8 (st.1 l + 1)), n)
    else (st.1, n)

/-- Body of the loop over `k`: sweep the level-4 array, then drop it when
`fourth` is still `0`. -/
def tickK (k : Fin 256) (st : Level3 × Counters) : Level3 × Counters :=
  match st.1 k with
  | none => st
  | some c =>
    let r := loop256 tickL (c, { st.2 with fourth := 0 })
    if r.2.fourth = 0 then (Function.update st.1 k none, r.2)
    else (Function.update st.1 k (some r.1), r.2)

/-- Body of the loop over `j`: sweep the level-3 array, then drop it when
`third` is still `0`. -/
def tickJ (j : Fin 256) (st : Level2 × Counters) : Level2 × Counters :=
  match st.1 j with
  | none => st
  | some b =>
    let r := loop256 tickK (b, { st.2 with third := 0 })
    if r.2.third = 0 then (Function.update st.1 j none, r.2)
    else (Function.update st.1 j (some r.1), r.2)

/-- Body of the loop over `i`: sweep the level-2 array, then drop it when
`second` is still `0`. -/
def tickI (a : Fin 256) (st : Level1 × Counters) : Level1 × Counters :=
  match st.1 a with
  | none => st
  | some x =>
    let r := loop256 tickJ (x, { st.2 with second := 0 })
    if r.2.second = 0 then (Function.update st.1 a none, r.2)
    else (Function.update st.1 a (some r.1), r.2)

/-- One decay sweep: the code run by `CheckIPList` on each tick of its
ticker, without writes from elsewhere while it runs. -/
def CheckIPListTick (ip : ipVisitS) : ipVisitS :=
  { ip with IpList := (loop256 tickI (ip.IpList, { second := 0, third := 0, fourth := 0 })).1 }

/-- The `if` chain of the innermost sweep body on one leaf value. -/
def age (v : Int) : Int :=
  if v = 0 then v
  else if v = -128 then v
  else if v > 0 then wrap8 (v - 1)
  else if v < 0 then wrap8 (v + 1)
  else v

/-- What one leaf adds to the counters of the sweep: the `continue` on a zero
leaf skips the three increments. -/
def leafCount (v : Int) : Nat := if v = 0 then 0 else 1

/-- Number of nonzero leaves of a level-4 array. -/
def live4 (c : Leaves) : Nat := ((List.finRange 256).map (fun l => leafCount (c l))).sum

/-- Nonzero leaves behind a level-3 slot. -/
def slotLive4 : Option Leaves → Nat
  | none => 0
  | some c => live4 c

/-- Number of nonzero leaves beneath a level-3 array. -/
def live3 (b : Level3) : Nat := ((List.finRange 256).map (fun k => slotLive4 (b k))).sum

/-- Nonzero leaves behind a level-2 slot. -/
def slotLive3 : Option Level3 → Nat
  | none => 0
  | some b => live3 b

/-- Number of nonzero leaves beneath a level-2 array. -/
def live2 (x : Level2) : Nat := ((List.finRange 256).map (fun j => slotLive3 (x j))).sum

/-- A level-3 slot after the sweep has passed it: nil stays nil, an array
without nonzero leaf is dropped, any other array has every leaf aged. -/
def sweptSlot4 : Option Leaves → Option Leaves
  | none => none
  | some c => if live4 c = 0 then none else some (fun l => age (c l))

/-- A level-2 slot after the sweep has passed it. -/
def sweptSlot3 : Option Level3 → Option Level3
  | none => none
  | some b => if live3 b = 0 then none else some (fun k => sweptSlot4 (b k))

/-- A root slot after the sweep has passed it. -/
def sweptSlot2 : Option Level2 → Option Level2
  | none => none
  | some x => if live2 x = 0 then none else some (fun j => sweptSlot3 (x j))

/-- Counters `n1` are counters `n` after `m` more nonzero leaves were met in
the loop over `l`: all three have risen by `m`. -/
def R4 (n : Counters) (m : Nat) (n1 : Counters) : Prop :=
  n1.second = n.second + m ∧ n1.third = n.third + m ∧ n1.fourth = n.fourth + m

/-- The same for the loop over `k`, which resets `fourth` on its way. -/
def R3 (n : Counters) (m : Nat) (n1 : Counters) : Prop :=
  n1.second = n.second + m ∧ n1.third = n.third + m

/-- The same for the loop over `j`, which resets `third` and `fourth`. -/
def R2 (n : Counters) (m : Nat) (n1 : Counters) : Prop :=
  n1.second = n.second + m

/-! ## Histories of calls -/

/-- One call on the store. -/
inductive Op where
  | add (ipStr : String)
  | ban (ipStr : String) (banTime : Int)
  | tick

/-- Effect of one call on the store. -/
def Op.apply (i : ipVisitS) : Op → ipVisitS
  | Op.add ipStr => (Add i ipStr).1
  | Op.ban ipStr banTime => (AddBanTime i ipStr banTime).1
  | Op.tick => CheckIPListTick i

/-- Effect of a sequence of calls, first call first. -/
def run (i : ipVisitS) (ops : List Op) : ipVisitS :=
  ops.foldl Op.apply i

/-- Results of `n` calls `Add(ipStr)` in a row, first call first, with the
store they leave. -/
def AddTimes (i : ipVisitS) (ipStr : String) : Nat → ipVisitS × List Int
  | 0 => (i, [])
  | n + 1 =>
    let r := Add i ipStr
    let rest := AddTimes r.1 ipStr n
    (rest.1, r.2 :: rest.2)

/-- A store with the given configuration and nothing recorded. -/
def emptyStore (limit cycleSecond visitLimitBanTime : Int) : ipVisitS :=
  { IpList := nilArray, limit := limit, cycleSecond := cycleSecond,
    visitLimitBanTime := visitLimitBanTime }

/-- The aging of one value as the specification states it: `0` and `-128`
stay, a positive value loses one, a temporary ban gains one. -/
def specAge (v : Int) : Int :=
  if v = 0 ∨ v = -128 then v
  else if v > 0 then v - 1
  else v + 1

/-- The call writes the leaf of the address with octets `l`: it is an `Add`
or an `AddBanTime` on a well-formed string with these octets. -/
def Op.writes (l : List Int) : Op → Prop
  | Op.add ipStr => (splitIp ipStr).2 = 0 ∧ (splitIp ipStr).1 = l
  | Op.ban ipStr _ => (splitIp ipStr).2 = 0 ∧ (splitIp ipStr).1 = l
  | Op.tick => False

/-- The call asks for no permanent ban: an `AddBanTime` has its ban time in
`[-127,-1]`. -/
def Op.finite : Op → Prop
  | Op.add _ => True
  | Op.ban _ banTime => -127 ≤ banTime ∧ banTime ≤ -1
  | Op.tick => True

instance (l : List Int) (op : Op) : Decidable (Op.writes l op) := by
  cases op <;> unfold Op.writes <;> infer_instance

instance (op : Op) : Decidable (Op.finite op) := by
  cases op <;> unfold Op.finite <;> infer_instance

/-- A valid configuration and no leaf outside `[-127,127]`. -/
def noPermanent (i : ipVisitS) : Prop :=
  (0 ≤ i.limit ∧ i.limit ≤ 127) ∧ (1 ≤ i.visitLimitBanTime ∧ i.visitLimitBanTime ≤ 127) ∧
    ∀ a b c d : Fin 256, -127 ≤ leafAt i.IpList a b c d ∧ leafAt i.IpList a b c d ≤ 127

/-- The store after `k` decay sweeps in a row, with no call in between. -/
def ticks : Nat → ipVisitS → ipVisitS
  | 0, ip => ip
  | k + 1, ip => ticks k (CheckIPListTick ip)

/-- The level-2 array of first octet `a` is allocated. -/
def alloc2 (t : Level1) (a : Fin 256) : Prop := ∃ x, t a = some x

/-- The level-3 array of octets `a`, `b` is allocated. -/
def alloc3 (t : Level1) (a b : Fin 256) : Prop := ∃ x y, t a = some x ∧ x b = some y

/-- The level-4 array of octets `a`, `b`, `c` is allocated. -/
def alloc4 (t : Level1) (a b c : Fin 256) : Prop :=
  ∃ x y z, t a = some x ∧ x b = some y ∧ y c = some z

/-- The pruning invariant as the specification states it: every allocated
array of levels 2, 3 and 4 has a nonzero leaf beneath it. -/
def noEmptyBranch (t : Level1) : Prop :=
  (∀ a, alloc2 t a → ∃ b c d, leafAt t a b c d ≠ 0) ∧
  (∀ a b, alloc3 t a b → ∃ c d, leafAt t a b c d ≠ 0) ∧
  (∀ a b c, alloc4 t a b c → ∃ d, leafAt t a b c d ≠ 0)

/-! ## Enumeration -/

/-- The text of `%d` for a number that is not negative: its decimal digits,
without sign or padding. -/
def decimal (n : Nat) : List Char := Nat.toDigits 10 n

/-- The Go call `fmt.Sprintf("%d.%d.%d.%d", i, j, k, l)` on four array
subscripts. -/
def Sprintf4 (i j k l : Fin 256) : String :=
  String.mk (decimal i.val ++ '.' :: (decimal j.val ++ '.' :: (decimal k.val ++
    '.' :: decimal l.val)))

/-- Body of the innermost loop (over `l`) of `get`: `st.1` is `listLen` and
`st.2` is `ipStrList`.  `listLen` is a Go `int`; it counts at most `256^4`
leaves and cannot overflow on a 64-bit target. -/
def getL (getType : Int) (i j k : Fin 256) (z : Leaves) (l : Fin 256)
    (st : Nat × List String) : Nat × List String :=
  if z l = 0 then st
  else if getType = 1 then (st.1 + 1, st.2)
  else (st.1, st.2 ++ [Sprintf4 i j k l])

/-- Body of the loop over `k` of `get`. -/
def getK (getType : Int) (i j : Fin 256) (y : Level3) (k : Fin 256)
    (st : Nat × List String) : Nat × List String :=
  match y k with
  | none => st
  | some z => loop256 (getL getType i j k z) st

/-- Body of the loop over `j` of `get`. -/
def getJ (getType : Int) (i : Fin 256) (x : Level2) (j : Fin 256)
    (st : Nat × List String) : Nat × List String :=
  match x j with
  | none => st
  | some y => loop256 (getK getType i j y) st

/-- Body of the loop over `i` of `get`. -/
def getI (getType : Int) (t : Level1) (i : Fin 256)
    (st : Nat × List String) : Nat × List String :=
  match t i with
  | none => st
  | some x => loop256 (getJ getType i x) st

/-- Source `get`: both results start out as zero values (`0` and the nil
slice). -/
def get (ip : ipVisitS) (getType : Int) : Nat × List String :=
  loop256 (getI getType ip.IpList) (0, [])

/-- Source `GetLen`. -/
def GetLen (ip : ipVisitS) : Nat := (get ip 1).1

/-- Source `GetAll`. -/
def GetAll (ip : ipVisitS) : List String := (get ip 2).2

/-- Four array subscripts, first octet first. -/
abbrev Addr := Fin 256 × Fin 256 × Fin 256 × Fin 256

/-- The guarded read at the four subscripts of `p`. -/
def leafOf (t : Level1) (p : Addr) : Int := leafAt t p.1 p.2.1 p.2.2.1 p.2.2.2

/-- The dotted text of the four subscripts of `p`. -/
def dotted (p : Addr) : String := Sprintf4 p.1 p.2.1 p.2.2.1 p.2.2.2

/-- Strictly ascending order of octet tuples, compared lexicographically. -/
def addrLt (p q : Addr) : Prop :=
  p.1 < q.1 ∨ (p.1 = q.1 ∧ (p.2.1 < q.2.1 ∨ (p.2.1 = q.2.1 ∧
    (p.2.2.1 < q.2.2.1 ∨ (p.2.2.1 = q.2.2.1 ∧ p.2.2.2 < q.2.2.2)))))

instance (p q : Addr) : Decidable (addrLt p q) := by
  unfold addrLt
  infer_instance

/-- The guarded read below an allocated level-3 array. -/
def leaf3 (y : Level3) (c d : Fin 256) : Int :=
  match y c with
  | none => 0
  | some z => z d

/-- The guarded read below an allocated level-2 array. -/
def leaf2 (x : Level2) (b c d : Fin 256) : Int :=
  match x b with
  | none => 0
  | some y => leaf3 y c d

/-- What one leaf value adds to `listLen` in `get`. -/
def getCount (getType : Int) (v : Int) : Nat :=
  if v = 0 then 0 else if getType = 1 then 1 else 0

/-- What one leaf value appends to `ipStrList` in `get`. -/
def getText (getType : Int) (v : Int) (s : String) : List String :=
  if v = 0 then [] else if getType = 1 then [] else [s]

/-- The subscripts under `a`, `b`, `c` with a nonzero guarded read, in
ascending order of the fourth. -/
def liveC (t : Level1) (a b c : Fin 256) : List Addr :=
  ((List.finRange 256).map fun d =>
    if leafAt t a b c d = 0 then [] else [((a, b, c, d) : Addr)]).flatten

/-- The subscripts under `a`, `b` with a nonzero guarded read, in loop
order. -/
def liveB (t : Level1) (a b : Fin 256) : List Addr :=
  ((List.finRange 256).map fun c => liveC t a b c).flatten

/-- The subscripts under `a` with a nonzero guarded read, in loop order. -/
def liveA (t : Level1) (a : Fin 256) : List Addr :=
  ((List.finRange 256).map fun b => liveB t a b).flatten

/-- The subscripts with a nonzero guarded read, in the order of four nested
ascending loops. -/
def liveAddrs (t : Level1) : List Addr :=
  ((List.finRange 256).map fun a => liveA t a).flatten

/-- No leaf with fourth subscript `0` is set: `splitIp` accepts no address
that would write one. -/
def zeroColumn (t : Level1) : Prop := ∀ a b c : Fin 256, leafAt t a b c 0 = 0

/-- The four octets of a tuple as `splitIp` returns them. -/
def octets (p : Addr) : List Int :=
  [(p.1.val : Int), (p.2.1.val : Int), (p.2.2.1.val : Int), (p.2.2.2.val : Int)]

/-! ## Memory estimate -/

instance (t : Level1) (a : Fin 256) : Decidable (alloc2 t a) :=
  match h : t a with
  | none => isFalse (fun ⟨_, hx⟩ => by rw [h] at hx; cases hx)
  | some x => isTrue ⟨x, h⟩

instance (t : Level1) (a b : Fin 256) : Decidable (alloc3 t a b) :=
  match h : t a with
  | none => isFalse (fun ⟨_, _, hx, _⟩ => by rw [h] at hx; cases hx)
  | some x =>
    match h1 : x b with
    | none => isFalse (fun ⟨x1, _, hx, hy⟩ => by
        rw [h] at hx
        cases hx
        rw [h1] at hy
        cases hy)
    | some y => isTrue ⟨x, y, h, h1⟩

instance (t : Level1) (a b c : Fin 256) : Decidable (alloc4 t a b c) :=
  match h : t a with
  | none => isFalse (fun ⟨_, _, _, hx, _, _⟩ => by rw [h] at hx; cases hx)
  | some x =>
    match h1 : x b with
    | none => isFalse (fun ⟨x1, _, _, hx, hy, _⟩ => by
        rw [h] at hx
        cases hx
        rw [h1] at hy
        cases hy)
    | some y =>
      match h2 : y c with
      | none => isFalse (fun ⟨x1, y1, _, hx, hy, hz⟩ => by
          rw [h] at hx
          cases hx
          rw [h1] at hy
          cases hy
          rw [h2] at hz
          cases hz)
      | some z => isTrue ⟨x, y, z, h, h1, h2⟩

/-- Sum of two `uintptr` values on a target whose references take `p` bytes:
it wraps at `2 ^ (8 * p)`. -/
def addPtr (p x y : Nat) : Nat := (x + y) % 2 ^ (8 * p)

/-- Product of two `uintptr` values on such a target. -/
def mulPtr (p x y : Nat) : Nat := (x * y) % 2 ^ (8 * p)

/-- Body of the loop over `k` of `GetSizeOf`: the size of the reference, then
for an allocated leaf array the size of one `int8` times 256. -/
def sizeK (p : Nat) (y : Level3) (k : Fin 256) (size : Nat) : Nat :=
  match y k with
  | none => addPtr p size p
  | some _ => addPtr p (addPtr p size p) (mulPtr p 1 256)

/-- Body of the loop over `j` of `GetSizeOf`. -/
def sizeJ (p : Nat) (x : Level2) (j : Fin 256) (size : Nat) : Nat :=
  match x j with
  | none => addPtr p size p
  | some y => loop256 (sizeK p y) (addPtr p size p)

/-- Body of the loop over `i` of `GetSizeOf`. -/
def sizeI (p : Nat) (t : Level1) (i : Fin 256) (size : Nat) : Nat :=
  match t i with
  | none => addPtr p size p
  | some x => loop256 (sizeJ p x) (addPtr p size p)

/-- Source `GetSizeOf` on a target whose references take `p` bytes:
`unsafe.Sizeof` is `256 * p` on the root array, `p` on a reference and `1` on
an `int8`. -/
def GetSizeOf (p : Nat) (ip : ipVisitS) : Nat :=
  loop256 (sizeI p ip.IpList) ((256 * p) % 2 ^ (8 * p))

/-- Number of allocated level-2 arrays. -/
def count2 (t : Level1) : Nat := (Finset.univ.filter fun a : Fin 256 => alloc2 t a).card

/-- Number of allocated level-3 arrays. -/
def count3 (t : Level1) : Nat :=
  (Finset.univ.filter fun q : Fin 256 × Fin 256 => alloc3 t q.1 q.2).card

/-- Number of allocated level-4 (leaf) arrays. -/
def count4 (t : Level1) : Nat :=
  (Finset.univ.filter fun q : Fin 256 × Fin 256 × Fin 256 => alloc4 t q.1 q.2.1 q.2.2).card

/-- The estimate as the specification states it: `256 * p` for the root
array, `256 * p` for each reference array of levels 1 to 3 (the root is the one
of level 1), and `256` for each leaf array. -/
def specSize (p : Nat) (t : Level1) : Nat :=
  256 * p + 256 * p * (1 + count2 t + count3 t) + 256 * count4 t

/-- What a slot of a level-3 array adds to the estimate. -/
def weightK (p : Nat) : Option Leaves → Nat
  | none => p
  | some _ => p + 256

/-- What a slot of a level-2 array adds to the estimate. -/
def weightJ (p : Nat) : Option Level3 → Nat
  | none => p
  | some y => p + ((List.finRange 256).map fun k => weightK p (y k)).sum

/-- What a slot of the root array adds to the estimate. -/
def weightI (p : Nat) : Option Level2 → Nat
  | none => p
  | some x => p + ((List.finRange 256).map fun j => weightJ p (x j)).sum

/-- A trie with one allocated path. -/
def onePath (o0 o1 o2 : Fin 256) (z : Leaves) : Level1 :=
  Function.update nilArray o0
    (some (Function.update nilArray o1 (some (Function.update nilArray o2 (some z)))))

/-! ## Properties of the octet codec -/

theorem splitIpLoop_ok (ps : List (List Char)) (acc : List Int)
    (h : ∀ p ∈ ps, specOctet p) :
    splitIpLoop ps acc = some (acc ++ ps.filterMap Atoi) := by
  induction ps generalizing acc with
  | nil => simp [splitIpLoop]
  | cons p ps ih =>
    obtain ⟨a, ha, h0, h1⟩ := h p (List.mem_cons_self _ _)
    have hrest : ∀ q ∈ ps, specOctet q := fun q hq => h q (List.mem_cons_of_mem _ hq)
    have hng : ¬ (a > 255 ∨ a < 0) := by omega
    simp only [splitIpLoop, ha, hng, if_false]
    rw [ih _ hrest]
    simp [List.filterMap_cons, ha]

theorem splitIpLoop_bad (ps : List (List Char)) (acc : List Int)
    (h : ¬ ∀ p ∈ ps, specOctet p) : splitIpLoop ps acc = none := by
  induction ps generalizing acc with
  | nil => exact absurd (fun p hp => absurd hp (List.not_mem_nil p)) h
  | cons p ps ih =>
    unfold splitIpLoop
    cases ha : Atoi p with
    | none => rfl
    | some a =>
      simp only []
      by_cases hr : a > 255 ∨ a < 0
      · simp only [hr, if_true]
      · simp only [hr, if_false]
        apply ih
        intro hall
        apply h
        intro q hq
        rcases List.mem_cons.mp hq with rfl | hq
        · exact ⟨a, ha, by omega, by omega⟩
        · exact hall q hq

theorem length_four {α : Type} (xs : List α) (h : xs.length = 4) :
    ∃ a b c d, xs = [a, b, c, d] := by
  match xs, h with
  | [a, b, c, d], _ => exact ⟨a, b, c, d, rfl⟩

/-- What `splitIp` returns on an address the specification accepts: code `0`
and four octets in range, the last nonzero, which are the parsed parts. -/
theorem splitIp_accepts (ipStr : String) (h : specAccepts ipStr) :
    ∃ a b c d : Int, splitIp ipStr = ([a, b, c, d], 0) ∧
      (splitDot ipStr.toList).map Atoi = [some a, some b, some c, some d] ∧
      (0 ≤ a ∧ a ≤ 255) ∧ (0 ≤ b ∧ b ≤ 255) ∧ (0 ≤ c ∧ c ≤ 255) ∧ (0 ≤ d ∧ d ≤ 255) ∧
      d ≠ 0 := by
  obtain ⟨hlen, hall, h4⟩ := h
  obtain ⟨p0, p1, p2, p3, hp⟩ := length_four _ hlen
  have hloop := splitIpLoop_ok _ [] hall
  rw [hp] at hall h4 hloop
  obtain ⟨a, ha, ha0, ha1⟩ := hall p0 (by simp)
  obtain ⟨b, hb, hb0, hb1⟩ := hall p1 (by simp)
  obtain ⟨c, hc, hc0, hc1⟩ := hall p2 (by simp)
  obtain ⟨d, hd, hd0, hd1⟩ := hall p3 (by simp)
  have hd2 : d ≠ 0 := by
    intro h0
    apply h4
    simp [hd, h0]
  refine ⟨a, b, c, d, ?_, ?_, ⟨ha0, ha1⟩, ⟨hb0, hb1⟩, ⟨hc0, hc1⟩, ⟨hd0, hd1⟩, hd2⟩
  · unfold splitIp
    simp only [hp, hloop]
    simp [ha, hb, hc, hd, hd2]
  · rw [hp]
    simp [ha, hb, hc, hd]

theorem splitIp_rejects (ipStr : String) (h : ¬ specAccepts ipStr) :
    splitIp ipStr = ([], -1) := by
  unfold splitIp
  simp only []
  by_cases hlen : (splitDot ipStr.toList).length = 4
  · simp only [hlen, ne_eq, not_true_eq_false, if_false]
    by_cases hall : ∀ p ∈ splitDot ipStr.toList, specOctet p
    · have hloop := splitIpLoop_ok _ [] hall
      rw [hloop]
      simp only [List.nil_append]
      have h4 : Atoi ((splitDot ipStr.toList).getD 3 []) = some 0 := by
        by_contra hne
        exact h ⟨hlen, hall, hne⟩
      obtain ⟨p0, p1, p2, p3, hp⟩ := length_four _ hlen
      rw [hp] at hall h4 ⊢
      obtain ⟨a, ha, -, -⟩ := hall p0 (by simp)
      obtain ⟨b, hb, -, -⟩ := hall p1 (by simp)
      obtain ⟨c, hc, -, -⟩ := hall p2 (by simp)
      have hd : Atoi p3 = some 0 := by simpa using h4
      simp [ha, hb, hc, hd]
    · rw [splitIpLoop_bad _ [] hall]
  · simp only [ne_eq, hlen, not_false_eq_true, if_true]

/-- A well-formed address has four octets in `[0,255]`, the last nonzero. -/
theorem splitIp_octets (ipStr : String) (h : (splitIp ipStr).2 = 0) :
    ∃ a b c d : Int, (splitIp ipStr).1 = [a, b, c, d] ∧
      (0 ≤ a ∧ a ≤ 255) ∧ (0 ≤ b ∧ b ≤ 255) ∧ (0 ≤ c ∧ c ≤ 255) ∧ (0 ≤ d ∧ d ≤ 255) ∧
      d ≠ 0 := by
  by_cases hs : specAccepts ipStr
  · obtain ⟨a, b, c, d, he, -, ha, hb, hc, hd, hd2⟩ := splitIp_accepts ipStr hs
    exact ⟨a, b, c, d, by rw [he], ha, hb, hc, hd, hd2⟩
  · rw [splitIp_rejects ipStr hs] at h
    exact absurd h (by decide)

/-! ## Reading and writing a leaf -/

theorem nil2Create_limit (i : ipVisitS) (l : List Int) : (nil2Create i l).limit = i.limit := by
  unfold nil2Create
  simp only []
  split
  · rfl
  · split
    · rfl
    · split <;> rfl

theorem nil2Create_ban (i : ipVisitS) (l : List Int) :
    (nil2Create i l).visitLimitBanTime = i.visitLimitBanTime := by
  unfold nil2Create
  simp only []
  split
  · rfl
  · split
    · rfl
    · split <;> rfl

theorem nil2Create_cycle (i : ipVisitS) (l : List Int) :
    (nil2Create i l).cycleSecond = i.cycleSecond := by
  unfold nil2Create
  simp only []
  split
  · rfl
  · split
    · rfl
    · split <;> rfl

/-- Allocation never changes what a guarded read sees. -/
theorem leafAt_nil2Create (i : ipVisitS) (l : List Int) (a b c d : Fin 256) :
    leafAt (nil2Create i l).IpList a b c d = leafAt i.IpList a b c d := by
  unfold nil2Create
  simp only []
  split
  · rename_i h0
    by_cases ha : a = oct l 0
    · subst ha
      by_cases hb : b = oct l 1
      · subst hb
        by_cases hc : c = oct l 2
        · subst hc
          simp [leafAt, h0, zeroLeaves]
        · simp [leafAt, h0, nilArray, Function.update_noteq hc]
      · simp [leafAt, h0, nilArray, Function.update_noteq hb]
    · simp [leafAt, Function.update_noteq ha]
  · rename_i x h0
    split
    · rename_i h1
      by_cases ha : a = oct l 0
      · subst ha
        by_cases hb : b = oct l 1
        · subst hb
          by_cases hc : c = oct l 2
          · subst hc
            simp [leafAt, h0, h1, zeroLeaves]
          · simp [leafAt, h0, h1, nilArray, Function.update_noteq hc]
        · simp [leafAt, h0, Function.update_noteq hb]
      · simp [leafAt, Function.update_noteq ha]
    · rename_i y h1
      split
      · rename_i h2
        by_cases ha : a = oct l 0
        · subst ha
          by_cases hb : b = oct l 1
          · subst hb
            by_cases hc : c = oct l 2
            · subst hc
              simp [leafAt, h0, h1, h2, zeroLeaves]
            · simp [leafAt, h0, h1, Function.update_noteq hc]
          · simp [leafAt, h0, Function.update_noteq hb]
        · simp [leafAt, Function.update_noteq ha]
      · rfl

/-- After `nil2Create` the whole path of the address is allocated. -/
theorem nil2Create_allocated (i : ipVisitS) (l : List Int) :
    ∃ x y z, (nil2Create i l).IpList (oct l 0) = some x ∧ x (oct l 1) = some y ∧
      y (oct l 2) = some z := by
  unfold nil2Create
  simp only []
  split
  · exact ⟨_, _, _, Function.update_same _ _ _, Function.update_same _ _ _,
      Function.update_same _ _ _⟩
  · rename_i x h0
    split
    · exact ⟨_, _, _, Function.update_same _ _ _, Function.update_same _ _ _,
      Function.update_same _ _ _⟩
    · rename_i y h1
      split
      · exact ⟨_, _, _, Function.update_same _ _ _, Function.update_same _ _ _,
      Function.update_same _ _ _⟩
      · rename_i z h2
        exact ⟨x, y, z, h0, h1, h2⟩

/-- A write through an allocated path changes the leaf of that address and of
no other. -/
theorem leafAt_thisIPSet (i : ipVisitS) (l : List Int) (v : Int) (a b c d : Fin 256)
    (h : ∃ x y z, i.IpList (oct l 0) = some x ∧ x (oct l 1) = some y ∧ y (oct l 2) = some z) :
    leafAt (thisIPSet i l v).IpList a b c d =
      if a = oct l 0 ∧ b = oct l 1 ∧ c = oct l 2 ∧ d = oct l 3 then v
      else leafAt i.IpList a b c d := by
  obtain ⟨x, y, z, h0, h1, h2⟩ := h
  unfold thisIPSet
  simp only [h0, h1, h2]
  by_cases ha : a = oct l 0
  · subst ha
    by_cases hb : b = oct l 1
    · subst hb
      by_cases hc : c = oct l 2
      · subst hc
        by_cases hd : d = oct l 3
        · subst hd
          simp [leafAt]
        · simp [leafAt, h0, h1, h2, Function.update_noteq hd, hd]
      · simp [leafAt, h0, h1, Function.update_noteq hc, hc]
    · simp [leafAt, h0, Function.update_noteq hb, hb]
  · simp [leafAt, Function.update_noteq ha, ha]

theorem thisIPSet_limit (i : ipVisitS) (l : List Int) (v : Int) :
    (thisIPSet i l v).limit = i.limit := by
  unfold thisIPSet
  simp only []
  split
  · rfl
  · split
    · rfl
    · split <;> rfl

theorem thisIPSet_ban (i : ipVisitS) (l : List Int) (v : Int) :
    (thisIPSet i l v).visitLimitBanTime = i.visitLimitBanTime := by
  unfold thisIPSet
  simp only []
  split
  · rfl
  · split
    · rfl
    · split <;> rfl

theorem thisIPSet_cycle (i : ipVisitS) (l : List Int) (v : Int) :
    (thisIPSet i l v).cycleSecond = i.cycleSecond := by
  unfold thisIPSet
  simp only []
  split
  · rfl
  · split
    · rfl
    · split <;> rfl

theorem thisIPGet_nil2Create (i : ipVisitS) (l : List Int) :
    thisIPGet (nil2Create i l) l = thisIPGet i l :=
  leafAt_nil2Create i l _ _ _ _

/-- Allocate, then write: the leaf of the address holds `v`, every other leaf
is as before. -/
theorem leafAt_write (i : ipVisitS) (l : List Int) (v : Int) (a b c d : Fin 256) :
    leafAt (thisIPSet (nil2Create i l) l v).IpList a b c d =
      if a = oct l 0 ∧ b = oct l 1 ∧ c = oct l 2 ∧ d = oct l 3 then v
      else leafAt i.IpList a b c d := by
  rw [leafAt_thisIPSet _ _ _ _ _ _ _ (nil2Create_allocated i l), leafAt_nil2Create]

theorem thisIPGet_write (i : ipVisitS) (l : List Int) (v : Int) :
    thisIPGet (thisIPSet (nil2Create i l) l v) l = v := by
  unfold thisIPGet
  rw [leafAt_write]
  simp

/-- The two results of `IsBan` in terms of the guarded read. -/
theorem IsBan_eq (i : ipVisitS) (ipStr : String) :
    IsBan i ipStr =
      if (splitIp ipStr).2 ≠ 0 then (0, false) else (thisIPGet i (splitIp ipStr).1, true) := by
  unfold IsBan thisIPGet leafAt
  simp only []
  split
  · rfl
  · split
    · rfl
    · split
      · rfl
      · split <;> rfl

/-- On a well-formed address `Add` returns the new value of its leaf. -/
theorem Add_result (i : ipVisitS) (ipStr : String) (h : (splitIp ipStr).2 = 0) :
    (Add i ipStr).2 =
      addVal i.limit i.visitLimitBanTime (thisIPGet i (splitIp ipStr).1) := by
  unfold Add addVal
  simp only [h, ne_eq, not_true_eq_false, if_false, thisIPGet_nil2Create, nil2Create_limit,
    nil2Create_ban]
  split_ifs <;> simp only [thisIPGet_write, thisIPGet_nil2Create]

/-- On a well-formed address `Add` rewrites the leaf of that address by
`addVal` and no other leaf. -/
theorem Add_leafAt (i : ipVisitS) (ipStr : String) (h : (splitIp ipStr).2 = 0)
    (a b c d : Fin 256) :
    leafAt (Add i ipStr).1.IpList a b c d =
      if a = oct (splitIp ipStr).1 0 ∧ b = oct (splitIp ipStr).1 1 ∧
          c = oct (splitIp ipStr).1 2 ∧ d = oct (splitIp ipStr).1 3 then
        addVal i.limit i.visitLimitBanTime (thisIPGet i (splitIp ipStr).1)
      else leafAt i.IpList a b c d := by
  unfold Add addVal
  simp only [h, ne_eq, not_true_eq_false, if_false, thisIPGet_nil2Create, nil2Create_limit,
    nil2Create_ban]
  split_ifs <;> simp only [leafAt_write, leafAt_nil2Create, if_pos, if_neg, *] <;>
    simp_all [thisIPGet]

theorem Add_malformed (i : ipVisitS) (ipStr : String) (h : (splitIp ipStr).2 ≠ 0) :
    Add i ipStr = (i, 0) := by
  unfold Add
  simp only [h, ne_eq, not_false_eq_true, if_true]

theorem Add_limit (i : ipVisitS) (ipStr : String) : (Add i ipStr).1.limit = i.limit := by
  unfold Add
  simp only []
  split_ifs <;> simp only [thisIPSet_limit, nil2Create_limit]

theorem Add_ban (i : ipVisitS) (ipStr : String) :
    (Add i ipStr).1.visitLimitBanTime = i.visitLimitBanTime := by
  unfold Add
  simp only []
  split_ifs <;> simp only [thisIPSet_ban, nil2Create_ban]

/-- On a well-formed address `AddBanTime` returns the new value of its leaf. -/
theorem AddBanTime_result (i : ipVisitS) (ipStr : String) (banTime : Int)
    (h : (splitIp ipStr).2 = 0) :
    (AddBanTime i ipStr banTime).2 = banVal banTime (thisIPGet i (splitIp ipStr).1) := by
  unfold AddBanTime banVal
  simp only [h, ne_eq, not_true_eq_false, if_false, thisIPGet_nil2Create]
  split_ifs <;> simp only [thisIPGet_write, thisIPGet_nil2Create]

/-- On a well-formed address `AddBanTime` rewrites the leaf of that address
by `banVal` and no other leaf. -/
theorem AddBanTime_leafAt (i : ipVisitS) (ipStr : String) (banTime : Int)
    (h : (splitIp ipStr).2 = 0) (a b c d : Fin 256) :
    leafAt (AddBanTime i ipStr banTime).1.IpList a b c d =
      if a = oct (splitIp ipStr).1 0 ∧ b = oct (splitIp ipStr).1 1 ∧
          c = oct (splitIp ipStr).1 2 ∧ d = oct (splitIp ipStr).1 3 then
        banVal banTime (thisIPGet i (splitIp ipStr).1)
      else leafAt i.IpList a b c d := by
  unfold AddBanTime banVal
  simp only [h, ne_eq, not_true_eq_false, if_false, thisIPGet_nil2Create]
  split_ifs <;> simp only [leafAt_write, leafAt_nil2Create, if_pos, if_neg, *] <;>
    simp_all [thisIPGet]

theorem AddBanTime_malformed (i : ipVisitS) (ipStr : String) (banTime : Int)
    (h : (splitIp ipStr).2 ≠ 0) : AddBanTime i ipStr banTime = (i, 0) := by
  unfold AddBanTime
  simp only [h, ne_eq, not_false_eq_true, if_true]

theorem AddBanTime_limit (i : ipVisitS) (ipStr : String) (banTime : Int) :
    (AddBanTime i ipStr banTime).1.limit = i.limit := by
  unfold AddBanTime
  simp only []
  split_ifs <;> simp only [thisIPSet_limit, nil2Create_limit]

theorem AddBanTime_ban (i : ipVisitS) (ipStr : String) (banTime : Int) :
    (AddBanTime i ipStr banTime).1.visitLimitBanTime = i.visitLimitBanTime := by
  unfold AddBanTime
  simp only []
  split_ifs <;> simp only [thisIPSet_ban, nil2Create_ban]

/-! ## The loops of the decay sweep -/

/-- A loop over distinct indices whose body rewrites only the slot it visits,
by `g`, and advances the counters by the weight `w` of that slot (in the sense
of `R`): every visited slot ends rewritten by `g` and the counters end
advanced by the total weight. -/
theorem foldl_body {α κ : Type}
    (body : Fin 256 → (Fin 256 → α) × κ → (Fin 256 → α) × κ) (g : α → α) (w : α → Nat)
    (R : κ → Nat → κ → Prop) (hrefl : ∀ n, R n 0 n)
    (htrans : ∀ n m n1 m1 n2, R n m n1 → R n1 m1 n2 → R n (m + m1) n2)
    (hbody : ∀ idx f n, ∃ n1,
      body idx (f, n) = (Function.update f idx (g (f idx)), n1) ∧ R n (w (f idx)) n1)
    (ls : List (Fin 256)) (hnd : ls.Nodup) (f : Fin 256 → α) (n : κ) :
    ∃ n1, ls.foldl (fun st idx => body idx st) (f, n) =
        (fun idx => if idx ∈ ls then g (f idx) else f idx, n1) ∧
      R n ((ls.map (fun idx => w (f idx))).sum) n1 := by
  induction ls generalizing f n with
  | nil => exact ⟨n, by simp, by simpa using hrefl n⟩
  | cons x xs ih =>
    rw [List.nodup_cons] at hnd
    obtain ⟨n1, hb, hR1⟩ := hbody x f n
    obtain ⟨n2, hfold, hR2⟩ := ih hnd.2 (Function.update f x (g (f x))) n1
    have hmap : xs.map (fun idx => w (Function.update f x (g (f x)) idx)) =
        xs.map (fun idx => w (f idx)) := by
      apply List.map_congr_left
      intro idx hidx
      have hne : idx ≠ x := fun he => hnd.1 (he ▸ hidx)
      rw [Function.update_noteq hne]
    rw [hmap] at hR2
    have hslots : (fun idx => if idx ∈ xs then g (Function.update f x (g (f x)) idx)
        else Function.update f x (g (f x)) idx) =
        fun idx => if idx ∈ x :: xs then g (f idx) else f idx := by
      funext idx
      by_cases hx : idx = x
      · subst hx
        simp [hnd.1]
      · simp [hx, Function.update_noteq hx]
    refine ⟨n2, ?_, ?_⟩
    · rw [List.foldl_cons, hb, hfold, hslots]
    · rw [List.map_cons, List.sum_cons]
      exact htrans _ _ _ _ _ hR1 hR2

theorem loop256_body {α κ : Type}
    (body : Fin 256 → (Fin 256 → α) × κ → (Fin 256 → α) × κ) (g : α → α) (w : α → Nat)
    (R : κ → Nat → κ → Prop) (hrefl : ∀ n, R n 0 n)
    (htrans : ∀ n m n1 m1 n2, R n m n1 → R n1 m1 n2 → R n (m + m1) n2)
    (hbody : ∀ idx f n, ∃ n1,
      body idx (f, n) = (Function.update f idx (g (f idx)), n1) ∧ R n (w (f idx)) n1)
    (f : Fin 256 → α) (n : κ) :
    ∃ n1, loop256 body (f, n) = (fun idx => g (f idx), n1) ∧
      R n (((List.finRange 256).map (fun idx => w (f idx))).sum) n1 := by
  obtain ⟨n1, h1, h2⟩ :=
    foldl_body body g w R hrefl htrans hbody _ (List.nodup_finRange 256) f n
  refine ⟨n1, ?_, h2⟩
  have hall : (fun idx => if idx ∈ List.finRange 256 then g (f idx) else f idx) =
      fun idx => g (f idx) := by
    funext idx
    rw [if_pos (List.mem_finRange idx)]
  unfold loop256
  rw [h1, hall]

/-- The body of the loop over `l` ages the leaf it visits and counts it in
all three counters when it is nonzero. -/
theorem tickL_eq (l : Fin 256) (c : Leaves) (n : Counters) :
    ∃ n1, tickL l (c, n) = (Function.update c l (age (c l)), n1) ∧
      R4 n (leafCount (c l)) n1 := by
  unfold tickL
  by_cases h0 : c l = 0
  · refine ⟨n, ?_, ?_⟩
    · have hage : age (c l) = c l := by
        unfold age
        rw [if_pos h0]
      rw [if_pos h0, hage, Function.update_eq_self]
    · unfold R4 leafCount
      rw [if_pos h0]
      exact ⟨rfl, rfl, rfl⟩
  · refine ⟨{ second := n.second + 1, third := n.third + 1, fourth := n.fourth + 1 }, ?_, ?_⟩
    · rw [if_neg h0]
      unfold age
      rw [if_neg h0]
      split_ifs
      · rw [Function.update_eq_self]
      · rfl
      · rfl
      · rw [Function.update_eq_self]
    · unfold R4 leafCount
      rw [if_neg h0]
      exact ⟨rfl, rfl, rfl⟩

/-- The loop over `l`: every leaf is aged and the counters rise by the number
of nonzero leaves. -/
theorem loopL_eq (c : Leaves) (n : Counters) :
    ∃ n1, loop256 tickL (c, n) = (fun l => age (c l), n1) ∧ R4 n (live4 c) n1 :=
  loop256_body tickL age leafCount R4 (fun _ => ⟨rfl, rfl, rfl⟩)
    (fun _ _ _ _ _ h1 h2 => by
      obtain ⟨a1, b1, c1⟩ := h1
      obtain ⟨a2, b2, c2⟩ := h2
      exact ⟨by omega, by omega, by omega⟩)
    tickL_eq c n

/-- The body of the loop over `k` sweeps the slot it visits. -/
theorem tickK_eq (k : Fin 256) (b : Level3) (n : Counters) :
    ∃ n1, tickK k (b, n) = (Function.update b k (sweptSlot4 (b k)), n1) ∧
      R3 n (slotLive4 (b k)) n1 := by
  unfold tickK
  cases h : b k with
  | none =>
    refine ⟨n, ?_, rfl, rfl⟩
    simp only [h, sweptSlot4]
    rw [← h, Function.update_eq_self]
  | some c =>
    obtain ⟨n1, hL, h2, h3, h4⟩ := loopL_eq c { n with fourth := 0 }
    simp only [h, hL, sweptSlot4, slotLive4]
    have h4a : n1.fourth = live4 c := by simpa using h4
    rw [h4a]
    split_ifs <;> exact ⟨n1, rfl, h2, h3⟩

/-- The loop over `k`: every level-3 slot is swept. -/
theorem loopK_eq (b : Level3) (n : Counters) :
    ∃ n1, loop256 tickK (b, n) = (fun k => sweptSlot4 (b k), n1) ∧ R3 n (live3 b) n1 :=
  loop256_body tickK sweptSlot4 slotLive4 R3 (fun _ => ⟨rfl, rfl⟩)
    (fun _ _ _ _ _ h1 h2 => by
      obtain ⟨a1, b1⟩ := h1
      obtain ⟨a2, b2⟩ := h2
      exact ⟨by omega, by omega⟩)
    tickK_eq b n

/-- The body of the loop over `j` sweeps the slot it visits. -/
theorem tickJ_eq (j : Fin 256) (x : Level2) (n : Counters) :
    ∃ n1, tickJ j (x, n) = (Function.update x j (sweptSlot3 (x j)), n1) ∧
      R2 n (slotLive3 (x j)) n1 := by
  unfold tickJ
  cases h : x j with
  | none =>
    refine ⟨n, ?_, rfl⟩
    simp only [h, sweptSlot3]
    rw [← h, Function.update_eq_self]
  | some b =>
    obtain ⟨n1, hK, h2, h3⟩ := loopK_eq b { n with third := 0 }
    simp only [h, hK, sweptSlot3, slotLive3]
    have h3a : n1.third = live3 b := by simpa using h3
    rw [h3a]
    split_ifs <;> exact ⟨n1, rfl, h2⟩

/-- The loop over `j`: every level-2 slot is swept. -/
theorem loopJ_eq (x : Level2) (n : Counters) :
    ∃ n1, loop256 tickJ (x, n) = (fun j => sweptSlot3 (x j), n1) ∧ R2 n (live2 x) n1 :=
  loop256_body tickJ sweptSlot3 slotLive3 R2 (fun _ => rfl)
    (fun _ _ _ _ _ h1 h2 => by
      unfold R2 at *
      omega)
    tickJ_eq x n

/-- The body of the loop over `i` sweeps the slot it visits. -/
theorem tickI_eq (a : Fin 256) (t : Level1) (n : Counters) :
    ∃ n1, tickI a (t, n) = (Function.update t a (sweptSlot2 (t a)), n1) ∧ True := by
  unfold tickI
  cases h : t a with
  | none =>
    refine ⟨n, ?_, trivial⟩
    simp only [h, sweptSlot2]
    rw [← h, Function.update_eq_self]
  | some x =>
    obtain ⟨n1, hJ, h2⟩ := loopJ_eq x { n with second := 0 }
    simp only [h, hJ, sweptSlot2]
    have h2a : n1.second = live2 x := by simpa [R2] using h2
    rw [h2a]
    split_ifs <;> exact ⟨n1, rfl, trivial⟩

/-- The store after one decay sweep, slot by slot. -/
theorem CheckIPListTick_IpList (ip : ipVisitS) :
    (CheckIPListTick ip).IpList = fun a => sweptSlot2 (ip.IpList a) := by
  obtain ⟨n1, h1, -⟩ :=
    loop256_body tickI sweptSlot2 (fun _ => 0) (fun _ _ _ => True) (fun _ => trivial)
      (fun _ _ _ _ _ _ _ => trivial) tickI_eq ip.IpList { second := 0, third := 0, fourth := 0 }
  unfold CheckIPListTick
  rw [h1]

theorem finRange_sum_zero (w : Fin 256 → Nat)
    (h : ((List.finRange 256).map w).sum = 0) (idx : Fin 256) : w idx = 0 :=
  List.sum_eq_zero_iff.mp h (w idx) (List.mem_map_of_mem w (List.mem_finRange idx))

theorem live4_zero (z : Leaves) (h : live4 z = 0) (d : Fin 256) : z d = 0 := by
  have hd := finRange_sum_zero (fun l => leafCount (z l)) h d
  unfold leafCount at hd
  by_contra hne
  simp [hne] at hd

theorem live3_zero (y : Level3) (h : live3 y = 0) (c : Fin 256) (z : Leaves)
    (hz : y c = some z) : live4 z = 0 := by
  have hc := finRange_sum_zero (fun k => slotLive4 (y k)) h c
  simpa [hz, slotLive4] using hc

theorem live2_zero (x : Level2) (h : live2 x = 0) (b : Fin 256) (y : Level3)
    (hy : x b = some y) : live3 y = 0 := by
  have hb := finRange_sum_zero (fun j => slotLive3 (x j)) h b
  simpa [hy, slotLive3] using hb

theorem age_zero : age 0 = 0 := by decide

/-- One decay sweep ages what every guarded read sees; dropping the arrays
without nonzero leaf changes no read. -/
theorem leafAt_tick (ip : ipVisitS) (a b c d : Fin 256) :
    leafAt (CheckIPListTick ip).IpList a b c d = age (leafAt ip.IpList a b c d) := by
  rw [CheckIPListTick_IpList]
  unfold leafAt
  cases hx : ip.IpList a with
  | none => simp only [hx, sweptSlot2, age_zero]
  | some x =>
    cases hy : x b with
    | none =>
      by_cases h2 : live2 x = 0
      · simp only [hx, hy, sweptSlot2, h2, if_true, age_zero]
      · simp only [hx, hy, sweptSlot2, sweptSlot3, h2, if_false, age_zero]
    | some y =>
      cases hz : y c with
      | none =>
        by_cases h2 : live2 x = 0
        · simp only [hx, hy, hz, sweptSlot2, h2, if_true, age_zero]
        · by_cases h3 : live3 y = 0
          · simp only [hx, hy, hz, sweptSlot2, sweptSlot3, h2, h3, if_true, if_false, age_zero]
          · simp only [hx, hy, hz, sweptSlot2, sweptSlot3, sweptSlot4, h2, h3, if_false,
              age_zero]
      | some z =>
        by_cases h2 : live2 x = 0
        · have h4 := live3_zero y (live2_zero x h2 b y hy) c z hz
          simp only [hx, hy, hz, sweptSlot2, h2, if_true, live4_zero z h4 d, age_zero]
        · by_cases h3 : live3 y = 0
          · have h4 := live3_zero y h3 c z hz
            simp only [hx, hy, hz, sweptSlot2, sweptSlot3, h2, h3, if_true, if_false,
              live4_zero z h4 d, age_zero]
          · by_cases h4 : live4 z = 0
            · simp only [hx, hy, hz, sweptSlot2, sweptSlot3, sweptSlot4, h2, h3, h4, if_true,
                if_false, live4_zero z h4 d, age_zero]
            · simp only [hx, hy, hz, sweptSlot2, sweptSlot3, sweptSlot4, h2, h3, h4, if_false]

theorem CheckIPListTick_limit (ip : ipVisitS) : (CheckIPListTick ip).limit = ip.limit := rfl

theorem CheckIPListTick_ban (ip : ipVisitS) :
    (CheckIPListTick ip).visitLimitBanTime = ip.visitLimitBanTime := rfl

/-! ## Facts shared by the claims -/

theorem wrap8_id (x : Int) (h : -128 ≤ x ∧ x ≤ 127) : wrap8 x = x := by
  unfold wrap8
  omega

theorem wrap8_range (x : Int) : -128 ≤ wrap8 x ∧ wrap8 x ≤ 127 := by
  unfold wrap8
  omega

/-- An answer of `IsBan` with `true` comes from a well-formed address and is
the guarded read of its leaf. -/
theorem IsBan_true (i : ipVisitS) (ipStr : String) (v : Int) (h : IsBan i ipStr = (v, true)) :
    (splitIp ipStr).2 = 0 ∧ thisIPGet i (splitIp ipStr).1 = v := by
  rw [IsBan_eq] at h
  by_cases hs : (splitIp ipStr).2 = 0
  · simp only [hs, ne_eq, not_true_eq_false, if_false, Prod.mk.injEq, and_true] at h
    exact ⟨hs, h⟩
  · simp [hs] at h

theorem IsBan_valid (i : ipVisitS) (ipStr : String) (h : (splitIp ipStr).2 = 0) :
    IsBan i ipStr = (thisIPGet i (splitIp ipStr).1, true) := by
  rw [IsBan_eq]
  simp only [h, ne_eq, not_true_eq_false, if_false]

theorem Add_thisIPGet (i : ipVisitS) (ipStr : String) (h : (splitIp ipStr).2 = 0) :
    thisIPGet (Add i ipStr).1 (splitIp ipStr).1 =
      addVal i.limit i.visitLimitBanTime (thisIPGet i (splitIp ipStr).1) := by
  unfold thisIPGet
  rw [Add_leafAt i ipStr h]
  simp [thisIPGet]

theorem AddBanTime_thisIPGet (i : ipVisitS) (ipStr : String) (banTime : Int)
    (h : (splitIp ipStr).2 = 0) :
    thisIPGet (AddBanTime i ipStr banTime).1 (splitIp ipStr).1 =
      banVal banTime (thisIPGet i (splitIp ipStr).1) := by
  unfold thisIPGet
  rw [AddBanTime_leafAt i ipStr banTime h]
  simp [thisIPGet]

/-- When the leaf of an address is nonzero its path is allocated and
`nil2Create` does nothing. -/
theorem nil2Create_of_ne_zero (i : ipVisitS) (l : List Int) (h : thisIPGet i l ≠ 0) :
    nil2Create i l = i := by
  unfold thisIPGet leafAt at h
  unfold nil2Create
  simp only []
  split
  · rename_i h0
    simp [h0] at h
  · rename_i x h0
    split
    · rename_i h1
      simp [h0, h1] at h
    · rename_i y h1
      split
      · rename_i h2
        simp [h0, h1, h2] at h
      · rfl

/-- Counting up from a leaf value `v` below the limit: the next calls return
`v + 1`, ..., `limit`, and the call after them the over-limit ban. -/
theorem AddTimes_from (ipStr : String) (h : (splitIp ipStr).2 = 0) (n : Nat) :
    ∀ (i : ipVisitS) (v : Nat),
      (0 ≤ i.limit ∧ i.limit ≤ 127) →
      (1 ≤ i.visitLimitBanTime ∧ i.visitLimitBanTime ≤ 127) →
      thisIPGet i (splitIp ipStr).1 = (v : Int) → (v : Int) + (n : Int) = i.limit →
      (AddTimes i ipStr (n + 1)).2 =
        (List.range n).map (fun k : Nat => (v : Int) + (k : Int) + 1) ++ [-i.visitLimitBanTime] := by
  induction n with
  | zero =>
    intro i v hL hB hv hsum
    have hval : addVal i.limit i.visitLimitBanTime (v : Int) = -i.visitLimitBanTime := by
      unfold addVal wrap8
      split_ifs <;> omega
    simp [AddTimes, Add_result i ipStr h, hv, hval]
  | succ n ih =>
    intro i v hL hB hv hsum
    have hval : addVal i.limit i.visitLimitBanTime (v : Int) = (v : Int) + 1 := by
      unfold addVal wrap8
      split_ifs <;> omega
    have hnext : thisIPGet (Add i ipStr).1 (splitIp ipStr).1 = ((v + 1 : Nat) : Int) := by
      rw [Add_thisIPGet i ipStr h, hv, hval]
      push_cast
      rfl
    have hrec := ih (Add i ipStr).1 (v + 1) (by rw [Add_limit]; exact hL)
      (by rw [Add_ban]; exact hB) hnext (by rw [Add_limit]; push_cast; omega)
    rw [AddTimes, hrec, Add_result i ipStr h, hv, hval, Add_ban, List.range_succ_eq_map]
    simp only [List.map_cons, List.map_map, List.cons_append, Nat.cast_zero, add_zero]
    congr 2
    apply List.map_congr_left
    intro k _
    simp only [Function.comp, Nat.cast_succ, Nat.cast_add, Nat.cast_one]
    omega

/-- A successful `InitIpVisit` returns the empty store with the given
configuration, and the configuration is in range. -/
theorem InitIpVisit_ok (limit cycleSecond visitLimitBanTime : Int) (i0 : ipVisitS)
    (h : InitIpVisit limit cycleSecond visitLimitBanTime = Except.ok i0) :
    i0 = emptyStore limit cycleSecond visitLimitBanTime ∧ (0 ≤ limit ∧ limit ≤ 127) ∧
      (1 ≤ cycleSecond ∧ cycleSecond ≤ 3600) ∧
      (1 ≤ visitLimitBanTime ∧ visitLimitBanTime ≤ 127) := by
  unfold InitIpVisit at h
  split_ifs at h with h1 h2 h3
  cases h
  exact ⟨rfl, by omega, by omega, by omega⟩

theorem leafAt_nilArray (a b c d : Fin 256) : leafAt nilArray a b c d = 0 := rfl

theorem run_cons (i : ipVisitS) (op : Op) (ops : List Op) :
    run i (op :: ops) = run (Op.apply i op) ops := rfl

/-- Well-formed addresses with the same four array subscripts have the same
octets. -/
theorem oct_inj (s1 s2 : String) (h1 : (splitIp s1).2 = 0) (h2 : (splitIp s2).2 = 0)
    (heq : oct (splitIp s1).1 0 = oct (splitIp s2).1 0 ∧
      oct (splitIp s1).1 1 = oct (splitIp s2).1 1 ∧
      oct (splitIp s1).1 2 = oct (splitIp s2).1 2 ∧
      oct (splitIp s1).1 3 = oct (splitIp s2).1 3) :
    (splitIp s1).1 = (splitIp s2).1 := by
  obtain ⟨a1, b1, c1, d1, e1, ha1, hb1, hc1, hd1, -⟩ := splitIp_octets s1 h1
  obtain ⟨a2, b2, c2, d2, e2, ha2, hb2, hc2, hd2, -⟩ := splitIp_octets s2 h2
  rw [e1, e2] at heq ⊢
  simp only [oct, List.getD_cons_zero, List.getD_cons_succ, Fin.mk.injEq] at heq
  obtain ⟨q0, q1, q2, q3⟩ := heq
  have r0 : a1 = a2 := by omega
  have r1 : b1 = b2 := by omega
  have r2 : c1 = c2 := by omega
  have r3 : d1 = d2 := by omega
  rw [r0, r1, r2, r3]

/-- `Add` on one address leaves the leaf of every other address alone. -/
theorem Add_other (i : ipVisitS) (sA sB : String) (hB : (splitIp sB).2 = 0)
    (hne : ¬ ((splitIp sA).2 = 0 ∧ (splitIp sA).1 = (splitIp sB).1)) :
    thisIPGet (Add i sA).1 (splitIp sB).1 = thisIPGet i (splitIp sB).1 := by
  by_cases hA : (splitIp sA).2 = 0
  · unfold thisIPGet
    rw [Add_leafAt i sA hA, if_neg]
    intro heq
    exact hne ⟨hA, (oct_inj sB sA hB hA heq).symm⟩
  · rw [Add_malformed i sA hA]

/-- `AddBanTime` on one address leaves the leaf of every other address
alone. -/
theorem AddBanTime_other (i : ipVisitS) (sA sB : String) (banTime : Int)
    (hB : (splitIp sB).2 = 0)
    (hne : ¬ ((splitIp sA).2 = 0 ∧ (splitIp sA).1 = (splitIp sB).1)) :
    thisIPGet (AddBanTime i sA banTime).1 (splitIp sB).1 = thisIPGet i (splitIp sB).1 := by
  by_cases hA : (splitIp sA).2 = 0
  · unfold thisIPGet
    rw [AddBanTime_leafAt i sA banTime hA, if_neg]
    intro heq
    exact hne ⟨hA, (oct_inj sB sA hB hA heq).symm⟩
  · rw [AddBanTime_malformed i sA banTime hA]

theorem noPermanent_Add (i : ipVisitS) (ipStr : String) (h : noPermanent i) :
    noPermanent (Add i ipStr).1 := by
  obtain ⟨hL, hB, hleaf⟩ := h
  refine ⟨by rw [Add_limit]; exact hL, by rw [Add_ban]; exact hB, ?_⟩
  intro a b c d
  by_cases hs : (splitIp ipStr).2 = 0
  · rw [Add_leafAt i ipStr hs]
    split_ifs
    · have hv := hleaf (oct (splitIp ipStr).1 0) (oct (splitIp ipStr).1 1)
        (oct (splitIp ipStr).1 2) (oct (splitIp ipStr).1 3)
      unfold thisIPGet addVal wrap8
      split_ifs <;> omega
    · exact hleaf a b c d
  · rw [Add_malformed i ipStr hs]
    exact hleaf a b c d

theorem noPermanent_AddBanTime (i : ipVisitS) (ipStr : String) (banTime : Int)
    (hm : -127 ≤ banTime ∧ banTime ≤ -1) (h : noPermanent i) :
    noPermanent (AddBanTime i ipStr banTime).1 := by
  obtain ⟨hL, hB, hleaf⟩ := h
  refine ⟨by rw [AddBanTime_limit]; exact hL, by rw [AddBanTime_ban]; exact hB, ?_⟩
  intro a b c d
  by_cases hs : (splitIp ipStr).2 = 0
  · rw [AddBanTime_leafAt i ipStr banTime hs]
    split_ifs
    · have hr := wrap8_range (thisIPGet i (splitIp ipStr).1 + banTime)
      unfold banVal
      split_ifs <;> omega
    · exact hleaf a b c d
  · rw [AddBanTime_malformed i ipStr banTime hs]
    exact hleaf a b c d

theorem noPermanent_tick (i : ipVisitS) (h : noPermanent i) :
    noPermanent (CheckIPListTick i) := by
  obtain ⟨hL, hB, hleaf⟩ := h
  refine ⟨hL, hB, ?_⟩
  intro a b c d
  rw [leafAt_tick]
  have hv := hleaf a b c d
  unfold age wrap8
  split_ifs <;> omega

theorem noPermanent_run (ops : List Op) :
    ∀ i : ipVisitS, noPermanent i → (∀ op ∈ ops, Op.finite op) → noPermanent (run i ops) := by
  induction ops with
  | nil => intro i h _; exact h
  | cons op ops ih =>
    intro i h hops
    rw [run_cons]
    apply ih
    · have hop := hops op (List.mem_cons_self _ _)
      cases op with
      | add ipStr => exact noPermanent_Add i ipStr h
      | ban ipStr banTime => exact noPermanent_AddBanTime i ipStr banTime hop h
      | tick => exact noPermanent_tick i h
    · intro op1 hop1
      exact hops op1 (List.mem_cons_of_mem _ hop1)

/-- A leaf that holds `0` and is written by no call of a history still holds
`0` after it. -/
theorem unwritten_run (ipStr : String) (hs : (splitIp ipStr).2 = 0) (ops : List Op) :
    ∀ i : ipVisitS, thisIPGet i (splitIp ipStr).1 = 0 →
      (∀ op ∈ ops, ¬ Op.writes (splitIp ipStr).1 op) →
      thisIPGet (run i ops) (splitIp ipStr).1 = 0 := by
  induction ops with
  | nil => intro i h _; exact h
  | cons op ops ih =>
    intro i h hops
    rw [run_cons]
    apply ih
    · have hop := hops op (List.mem_cons_self _ _)
      cases op with
      | add sA => exact (Add_other i sA ipStr hs hop).trans h
      | ban sA banTime => exact (AddBanTime_other i sA ipStr banTime hs hop).trans h
      | tick =>
        show leafAt (CheckIPListTick i).IpList _ _ _ _ = 0
        rw [leafAt_tick]
        unfold thisIPGet at h
        rw [h]
        exact age_zero
    · intro op1 hop1
      exact hops op1 (List.mem_cons_of_mem _ hop1)

/-- What `AddBanTime` with a ban time in `[-127,-1]` leaves in a leaf that
holds a ban `v`: the sum when it stays above `-128`, `-127` when it is exactly
`-128`, and the sum wrapped around to a positive value when it is below. -/
theorem banVal_banned (v m : Int) (hv : -128 ≤ v ∧ v < 0) (hm : -127 ≤ m ∧ m ≤ -1) :
    banVal m v =
      if v + m > -128 then v + m else if v + m = -128 then -127 else v + m + 256 := by
  unfold banVal wrap8
  split_ifs <;> omega

/-- What `AddBanTime` with a ban time in `[-127,-1]` returns and stores on an
address that holds a ban `v`. -/
theorem AddBanTime_banned (i : ipVisitS) (ipStr : String) (v m : Int)
    (h : IsBan i ipStr = (v, true)) (hv : -128 ≤ v ∧ v < 0) (hm : -127 ≤ m ∧ m ≤ -1) :
    (AddBanTime i ipStr m).2 =
        (if v + m > -128 then v + m else if v + m = -128 then -127 else v + m + 256) ∧
      IsBan (AddBanTime i ipStr m).1 ipStr =
        (if v + m > -128 then v + m else if v + m = -128 then -127 else v + m + 256, true) := by
  obtain ⟨hs, hget⟩ := IsBan_true i ipStr v h
  refine ⟨?_, ?_⟩
  · rw [AddBanTime_result i ipStr _ hs, hget, banVal_banned v m hv hm]
  · rw [IsBan_valid _ ipStr hs, AddBanTime_thisIPGet i ipStr _ hs, hget, banVal_banned v m hv hm]

/-- The `if` chain of `Add` never leaves `0` in the leaf it visits when the
configuration is valid. -/
theorem addVal_ne_zero (limit ban v : Int) (hL : 0 ≤ limit ∧ limit ≤ 127)
    (hB : 1 ≤ ban ∧ ban ≤ 127) : addVal limit ban v ≠ 0 := by
  unfold addVal wrap8
  split_ifs <;> omega

/-- Aging `k` times a value in `[-127,127]` moves it `k` steps towards `0` and
then leaves it there. -/
theorem age_iterate (k : Nat) (v : Int) (hv : -127 ≤ v ∧ v ≤ 127) :
    age^[k] v =
      if (k : Int) < |v| then (if v < 0 then v + k else v - k) else 0 := by
  induction k generalizing v with
  | zero =>
    simp only [Function.iterate_zero, id_eq, Nat.cast_zero]
    by_cases h0 : v = 0
    · subst h0
      simp
    · rw [if_pos (abs_pos.mpr h0)]
      split_ifs <;> omega
  | succ k ih =>
    have hage : -127 ≤ age v ∧ age v ≤ 127 := by
      unfold age wrap8
      split_ifs <;> omega
    rw [Function.iterate_succ_apply, ih (age v) hage]
    have habs : |age v| = if v = 0 then 0 else |v| - 1 := by
      unfold age wrap8
      split_ifs with h1 h2 h3 h4
      · simp [h1]
      · omega
      · rw [abs_of_nonneg (by omega), abs_of_pos (by omega)]
        omega
      · rw [abs_of_nonpos (by omega), abs_of_neg (by omega)]
        omega
      · omega
    have hval : age v = if v = 0 then 0 else if v < 0 then v + 1 else v - 1 := by
      unfold age wrap8
      split_ifs <;> omega
    rw [habs, hval]
    push_cast
    by_cases h0 : v = 0
    · subst h0
      simp only [if_true, abs_zero]
      split_ifs <;> omega
    · simp only [h0, if_false]
      have hpos : 0 < |v| := abs_pos.mpr h0
      by_cases hneg : v < 0
      · simp only [hneg, if_true]
        rw [abs_of_neg hneg] at hpos ⊢
        split_ifs <;> omega
      · simp only [hneg, if_false]
        rw [abs_of_nonneg (by omega)] at hpos ⊢
        split_ifs <;> omega

/-- What a guarded read sees after `k` sweeps in a row. -/
theorem leafAt_ticks (k : Nat) (ip : ipVisitS) (a b c d : Fin 256) :
    leafAt (ticks k ip).IpList a b c d = age^[k] (leafAt ip.IpList a b c d) := by
  induction k generalizing ip with
  | zero => rfl
  | succ k ih => rw [ticks, ih, leafAt_tick, Function.iterate_succ_apply]

theorem finRange_sum_ne_zero (w : Fin 256 → Nat) :
    ((List.finRange 256).map w).sum ≠ 0 ↔ ∃ idx, w idx ≠ 0 := by
  constructor
  · intro h
    by_contra hn
    push_neg at hn
    apply h
    apply List.sum_eq_zero_iff.mpr
    intro x hx
    obtain ⟨idx, -, rfl⟩ := List.mem_map.mp hx
    exact hn idx
  · rintro ⟨idx, hidx⟩ h
    exact hidx (finRange_sum_zero w h idx)

theorem live4_ne_zero (z : Leaves) : live4 z ≠ 0 ↔ ∃ d, z d ≠ 0 := by
  unfold live4
  rw [finRange_sum_ne_zero]
  constructor
  · rintro ⟨d, hd⟩
    refine ⟨d, fun h => hd ?_⟩
    simp [leafCount, h]
  · rintro ⟨d, hd⟩
    exact ⟨d, by simp [leafCount, hd]⟩

theorem live3_ne_zero (y : Level3) :
    live3 y ≠ 0 ↔ ∃ c z d, y c = some z ∧ z d ≠ 0 := by
  unfold live3
  rw [finRange_sum_ne_zero]
  constructor
  · rintro ⟨c, hc⟩
    cases hz : y c with
    | none => simp [hz, slotLive4] at hc
    | some z =>
      rw [hz] at hc
      obtain ⟨d, hd⟩ := (live4_ne_zero z).mp hc
      exact ⟨c, z, d, hz, hd⟩
  · rintro ⟨c, z, d, hz, hd⟩
    refine ⟨c, ?_⟩
    rw [hz]
    exact (live4_ne_zero z).mpr ⟨d, hd⟩

theorem live2_ne_zero (x : Level2) :
    live2 x ≠ 0 ↔ ∃ b y c z d, x b = some y ∧ y c = some z ∧ z d ≠ 0 := by
  unfold live2
  rw [finRange_sum_ne_zero]
  constructor
  · rintro ⟨b, hb⟩
    cases hy : x b with
    | none => simp [hy, slotLive3] at hb
    | some y =>
      rw [hy] at hb
      obtain ⟨c, z, d, hz, hd⟩ := (live3_ne_zero y).mp hb
      exact ⟨b, y, c, z, d, hy, hz, hd⟩
  · rintro ⟨b, y, c, z, d, hy, hz, hd⟩
    refine ⟨b, ?_⟩
    rw [hy]
    exact (live3_ne_zero y).mpr ⟨c, z, d, hz, hd⟩

/-- A guarded read is nonzero exactly when the whole path is allocated and the
leaf is nonzero. -/
theorem leafAt_ne_zero (t : Level1) (a b c d : Fin 256) :
    leafAt t a b c d ≠ 0 ↔ ∃ x y z, t a = some x ∧ x b = some y ∧ y c = some z ∧ z d ≠ 0 := by
  unfold leafAt
  cases hx : t a with
  | none => simp
  | some x =>
    cases hy : x b with
    | none => simp [hy]
    | some y =>
      cases hz : y c with
      | none => simp [hy, hz]
      | some z => simp [hy, hz]

theorem sweptSlot4_some (o : Option Leaves) (z1 : Leaves) :
    sweptSlot4 o = some z1 ↔ ∃ z, o = some z ∧ live4 z ≠ 0 ∧ z1 = fun l => age (z l) := by
  cases o with
  | none => simp [sweptSlot4]
  | some z =>
    by_cases h : live4 z = 0
    · simp [sweptSlot4, h]
    · simp only [sweptSlot4, h, if_false, Option.some.injEq]
      constructor
      · intro he
        exact ⟨z, rfl, h, he.symm⟩
      · rintro ⟨z2, he, -, hz⟩
        rw [hz, ← he]

theorem sweptSlot3_some (o : Option Level3) (y1 : Level3) :
    sweptSlot3 o = some y1 ↔
      ∃ y, o = some y ∧ live3 y ≠ 0 ∧ y1 = fun k => sweptSlot4 (y k) := by
  cases o with
  | none => simp [sweptSlot3]
  | some y =>
    by_cases h : live3 y = 0
    · simp [sweptSlot3, h]
    · simp only [sweptSlot3, h, if_false, Option.some.injEq]
      constructor
      · intro he
        exact ⟨y, rfl, h, he.symm⟩
      · rintro ⟨y2, he, -, hy⟩
        rw [hy, ← he]

theorem sweptSlot2_some (o : Option Level2) (x1 : Level2) :
    sweptSlot2 o = some x1 ↔
      ∃ x, o = some x ∧ live2 x ≠ 0 ∧ x1 = fun j => sweptSlot3 (x j) := by
  cases o with
  | none => simp [sweptSlot2]
  | some x =>
    by_cases h : live2 x = 0
    · simp [sweptSlot2, h]
    · simp only [sweptSlot2, h, if_false, Option.some.injEq]
      constructor
      · intro he
        exact ⟨x, rfl, h, he.symm⟩
      · rintro ⟨x2, he, -, hx⟩
        rw [hx, ← he]

/-- After a sweep a level-2 array is allocated exactly when a leaf beneath it
was nonzero before the sweep. -/
theorem alloc2_tick (ip : ipVisitS) (a : Fin 256) :
    alloc2 (CheckIPListTick ip).IpList a ↔ ∃ b c d, leafAt ip.IpList a b c d ≠ 0 := by
  unfold alloc2
  rw [CheckIPListTick_IpList]
  simp only [sweptSlot2_some, live2_ne_zero, leafAt_ne_zero]
  constructor
  · rintro ⟨x1, x, hx, ⟨b, y, c, z, d, hy, hz, hd⟩, -⟩
    exact ⟨b, c, d, x, y, z, hx, hy, hz, hd⟩
  · rintro ⟨b, c, d, x, y, z, hx, hy, hz, hd⟩
    exact ⟨_, x, hx, ⟨b, y, c, z, d, hy, hz, hd⟩, rfl⟩

/-- After a sweep a level-3 array is allocated exactly when a leaf beneath it
was nonzero before the sweep. -/
theorem alloc3_tick (ip : ipVisitS) (a b : Fin 256) :
    alloc3 (CheckIPListTick ip).IpList a b ↔ ∃ c d, leafAt ip.IpList a b c d ≠ 0 := by
  unfold alloc3
  rw [CheckIPListTick_IpList]
  simp only [sweptSlot2_some, leafAt_ne_zero]
  constructor
  · rintro ⟨x1, y1, ⟨x, hx, -, rfl⟩, hy1⟩
    obtain ⟨y, hy, h3, -⟩ := (sweptSlot3_some _ _).mp hy1
    obtain ⟨c, z, d, hz, hd⟩ := (live3_ne_zero y).mp h3
    exact ⟨c, d, x, y, z, hx, hy, hz, hd⟩
  · rintro ⟨c, d, x, y, z, hx, hy, hz, hd⟩
    refine ⟨fun j => sweptSlot3 (x j), fun k => sweptSlot4 (y k),
      ⟨x, hx, (live2_ne_zero x).mpr ⟨b, y, c, z, d, hy, hz, hd⟩, rfl⟩, ?_⟩
    exact (sweptSlot3_some _ _).mpr ⟨y, hy, (live3_ne_zero y).mpr ⟨c, z, d, hz, hd⟩, rfl⟩

/-- After a sweep a level-4 array is allocated exactly when one of its leaves
was nonzero before the sweep. -/
theorem alloc4_tick (ip : ipVisitS) (a b c : Fin 256) :
    alloc4 (CheckIPListTick ip).IpList a b c ↔ ∃ d, leafAt ip.IpList a b c d ≠ 0 := by
  unfold alloc4
  rw [CheckIPListTick_IpList]
  simp only [sweptSlot2_some, leafAt_ne_zero]
  constructor
  · rintro ⟨x1, y1, z1, ⟨x, hx, -, rfl⟩, hy1, hz1⟩
    obtain ⟨y, hy, -, rfl⟩ := (sweptSlot3_some _ _).mp hy1
    obtain ⟨z, hz, h4, -⟩ := (sweptSlot4_some _ _).mp hz1
    obtain ⟨d, hd⟩ := (live4_ne_zero z).mp h4
    exact ⟨d, x, y, z, hx, hy, hz, hd⟩
  · rintro ⟨d, x, y, z, hx, hy, hz, hd⟩
    refine ⟨fun j => sweptSlot3 (x j), fun k => sweptSlot4 (y k), fun l => age (z l),
      ⟨x, hx, (live2_ne_zero x).mpr ⟨b, y, c, z, d, hy, hz, hd⟩, rfl⟩, ?_, ?_⟩
    · exact (sweptSlot3_some _ _).mpr ⟨y, hy, (live3_ne_zero y).mpr ⟨c, z, d, hz, hd⟩, rfl⟩
    · exact (sweptSlot4_some _ _).mpr ⟨z, hz, (live4_ne_zero z).mpr ⟨d, hd⟩, rfl⟩

/-! ## Dotted text of an address -/

set_option maxRecDepth 100000 in
theorem Atoi_decimal : ∀ n : Fin 256, Atoi (decimal n.val) = some (n.val : Int) := by
  decide

set_option maxRecDepth 100000 in
theorem decimal_no_dot : ∀ n : Fin 256, '.' ∉ decimal n.val := by
  decide

theorem splitDot_no_dot (A : List Char) (h : '.' ∉ A) : splitDot A = [A] := by
  induction A with
  | nil => rfl
  | cons c cs ih =>
    have hc : c ≠ '.' := fun he => h (he ▸ List.mem_cons_self _ _)
    have hcs : '.' ∉ cs := fun hm => h (List.mem_cons_of_mem _ hm)
    simp only [splitDot, hc, if_false, ih hcs]

theorem splitDot_append (A R : List Char) (h : '.' ∉ A) :
    splitDot (A ++ '.' :: R) = A :: splitDot R := by
  induction A with
  | nil => simp [splitDot]
  | cons c cs ih =>
    have hc : c ≠ '.' := fun he => h (he ▸ List.mem_cons_self _ _)
    have hcs : '.' ∉ cs := fun hm => h (List.mem_cons_of_mem _ hm)
    have e : splitDot ((c :: cs) ++ '.' :: R) =
        match splitDot (cs ++ '.' :: R) with
        | [] => [[c]]
        | p :: ps => (c :: p) :: ps := by
      simp only [List.cons_append, splitDot, hc, if_false]
      rfl
    rw [e, ih hcs]

/-- The octets of a tuple, as `splitIp` returns them. -/
theorem oct_of_tuple (a b c d : Fin 256) :
    oct [(a.val : Int), (b.val : Int), (c.val : Int), (d.val : Int)] 0 = a ∧
    oct [(a.val : Int), (b.val : Int), (c.val : Int), (d.val : Int)] 1 = b ∧
    oct [(a.val : Int), (b.val : Int), (c.val : Int), (d.val : Int)] 2 = c ∧
    oct [(a.val : Int), (b.val : Int), (c.val : Int), (d.val : Int)] 3 = d := by
  refine ⟨?_, ?_, ?_, ?_⟩ <;>
    · apply Fin.ext
      simp only [oct, List.getD_cons_zero, List.getD_cons_succ, Int.toNat_ofNat]
      exact Nat.mod_eq_of_lt (Fin.isLt _)

/-- The text that `get` produces for four subscripts is accepted by `splitIp`
when the fourth is nonzero, and parses back to the same subscripts. -/
theorem splitIp_Sprintf4 (a b c d : Fin 256) (hd : d ≠ 0) :
    splitIp (Sprintf4 a b c d) =
      ([(a.val : Int), (b.val : Int), (c.val : Int), (d.val : Int)], 0) := by
  have hsplit : splitDot (Sprintf4 a b c d).toList =
      [decimal a.val, decimal b.val, decimal c.val, decimal d.val] := by
    show splitDot (decimal a.val ++ '.' :: (decimal b.val ++ '.' :: (decimal c.val ++
      '.' :: decimal d.val))) = _
    rw [splitDot_append _ _ (decimal_no_dot a), splitDot_append _ _ (decimal_no_dot b),
      splitDot_append _ _ (decimal_no_dot c), splitDot_no_dot _ (decimal_no_dot d)]
  have hdv : (d.val : Int) ≠ 0 := by
    intro h
    apply hd
    apply Fin.ext
    simpa using h
  have ha := Fin.isLt a
  have hb := Fin.isLt b
  have hc := Fin.isLt c
  have hd1 := Fin.isLt d
  unfold splitIp
  simp only [hsplit, List.length_cons, List.length_nil, ne_eq, not_true_eq_false,
    if_false, splitIpLoop, Atoi_decimal]
  have r1 : ¬ ((a.val : Int) > 255 ∨ (a.val : Int) < 0) := by omega
  have r2 : ¬ ((b.val : Int) > 255 ∨ (b.val : Int) < 0) := by omega
  have r3 : ¬ ((c.val : Int) > 255 ∨ (c.val : Int) < 0) := by omega
  have r4 : ¬ ((d.val : Int) > 255 ∨ (d.val : Int) < 0) := by omega
  simp only [r1, r2, r3, r4, if_false, List.nil_append, List.cons_append, List.getD_cons_succ,
    List.getD_cons_zero, hdv]

/-- `IsBan` on the text of four subscripts reads the leaf at these
subscripts. -/
theorem IsBan_Sprintf4 (i : ipVisitS) (a b c d : Fin 256) (hd : d ≠ 0) :
    IsBan i (Sprintf4 a b c d) = (leafAt i.IpList a b c d, true) := by
  have hs := splitIp_Sprintf4 a b c d hd
  obtain ⟨h0, h1, h2, h3⟩ := oct_of_tuple a b c d
  rw [IsBan_valid i _ (by rw [hs]), hs]
  unfold thisIPGet
  rw [h0, h1, h2, h3]

/-- Every well-formed string denotes four subscripts, the fourth nonzero, and
`IsBan` on it reads the leaf at these subscripts. -/
theorem IsBan_of_valid (i : ipVisitS) (ipStr : String) (h : (splitIp ipStr).2 = 0) :
    ∃ p : Addr, p.2.2.2 ≠ 0 ∧
      (splitIp ipStr).1 =
        [(p.1.val : Int), (p.2.1.val : Int), (p.2.2.1.val : Int), (p.2.2.2.val : Int)] ∧
      IsBan i ipStr = (leafOf i.IpList p, true) := by
  obtain ⟨a, b, c, d, he, ha, hb, hc, hd, hd0⟩ := splitIp_octets ipStr h
  have e0 : ((a.toNat : Nat) : Int) = a := Int.toNat_of_nonneg ha.1
  have e1 : ((b.toNat : Nat) : Int) = b := Int.toNat_of_nonneg hb.1
  have e2 : ((c.toNat : Nat) : Int) = c := Int.toNat_of_nonneg hc.1
  have e3 : ((d.toNat : Nat) : Int) = d := Int.toNat_of_nonneg hd.1
  refine ⟨(⟨a.toNat, by omega⟩, ⟨b.toNat, by omega⟩, ⟨c.toNat, by omega⟩, ⟨d.toNat, by omega⟩),
    ?_, ?_, ?_⟩
  · intro h0
    have := congrArg Fin.val h0
    simp only [Fin.val_zero] at this
    omega
  · simp only [e0, e1, e2, e3, he]
  · rw [IsBan_valid i ipStr h, he]
    unfold thisIPGet leafOf
    have hl : [a, b, c, d] = [((a.toNat : Nat) : Int), ((b.toNat : Nat) : Int),
        ((c.toNat : Nat) : Int), ((d.toNat : Nat) : Int)] := by rw [e0, e1, e2, e3]
    rw [hl]
    obtain ⟨h0, h1, h2, h3⟩ := oct_of_tuple ⟨a.toNat, by omega⟩ ⟨b.toNat, by omega⟩
      ⟨c.toNat, by omega⟩ ⟨d.toNat, by omega⟩
    rw [h0, h1, h2, h3]

/-! ## The loops of `get` -/

/-- A loop whose body adds `cnt idx` to the count and appends `lst idx` to the
list ends with the total added and all pieces appended in order. -/
theorem foldl_acc {β : Type} (body : Fin 256 → Nat × List β → Nat × List β)
    (cnt : Fin 256 → Nat) (lst : Fin 256 → List β)
    (hbody : ∀ idx st, body idx st = (st.1 + cnt idx, st.2 ++ lst idx))
    (ls : List (Fin 256)) (st : Nat × List β) :
    ls.foldl (fun st idx => body idx st) st =
      (st.1 + (ls.map cnt).sum, st.2 ++ (ls.map lst).flatten) := by
  induction ls generalizing st with
  | nil => simp
  | cons x xs ih =>
    rw [List.foldl_cons, ih, hbody]
    simp only [List.map_cons, List.sum_cons, List.flatten_cons, List.append_assoc, Nat.add_assoc]

theorem loop256_acc {β : Type} (body : Fin 256 → Nat × List β → Nat × List β)
    (cnt : Fin 256 → Nat) (lst : Fin 256 → List β)
    (hbody : ∀ idx st, body idx st = (st.1 + cnt idx, st.2 ++ lst idx))
    (st : Nat × List β) :
    loop256 body st =
      (st.1 + ((List.finRange 256).map cnt).sum,
        st.2 ++ ((List.finRange 256).map lst).flatten) := by
  unfold loop256
  exact foldl_acc body cnt lst hbody _ st

theorem loop256_acc_init {β : Type} (body : Fin 256 → Nat × List β → Nat × List β)
    (cnt : Fin 256 → Nat) (lst : Fin 256 → List β)
    (hbody : ∀ idx st, body idx st = (st.1 + cnt idx, st.2 ++ lst idx)) :
    loop256 body (0, []) =
      (((List.finRange 256).map cnt).sum, ((List.finRange 256).map lst).flatten) := by
  rw [loop256_acc body cnt lst hbody]
  show (0 + _, [] ++ _) = _
  rw [Nat.zero_add, List.nil_append]

theorem sum_map_zero (ls : List (Fin 256)) : (ls.map (fun _ => 0)).sum = 0 := by
  induction ls with
  | nil => rfl
  | cons x xs ih => rw [List.map_cons, List.sum_cons, ih]

theorem flatten_map_nil {β : Type} (ls : List (Fin 256)) :
    (ls.map (fun _ => ([] : List β))).flatten = [] := by
  induction ls with
  | nil => rfl
  | cons x xs ih => rw [List.map_cons, List.flatten_cons, ih, List.nil_append]

theorem getCount_zero (getType : Int) : getCount getType 0 = 0 := by
  simp [getCount]

theorem getText_zero (getType : Int) (s : String) : getText getType 0 s = [] := by
  simp [getText]

theorem getL_eq (getType : Int) (i j k : Fin 256) (z : Leaves) (l : Fin 256)
    (st : Nat × List String) :
    getL getType i j k z l st =
      (st.1 + getCount getType (z l), st.2 ++ getText getType (z l) (Sprintf4 i j k l)) := by
  unfold getL getCount getText
  split_ifs <;> simp

theorem getK_eq (getType : Int) (i j : Fin 256) (y : Level3) (k : Fin 256)
    (st : Nat × List String) :
    getK getType i j y k st =
      (st.1 + ((List.finRange 256).map fun l => getCount getType (leaf3 y k l)).sum,
        st.2 ++ ((List.finRange 256).map fun l =>
          getText getType (leaf3 y k l) (Sprintf4 i j k l)).flatten) := by
  unfold getK leaf3
  cases h : y k with
  | none =>
    simp only [getCount_zero, getText_zero, sum_map_zero, flatten_map_nil, Nat.add_zero,
      List.append_nil]
  | some z =>
    simp only []
    rw [loop256_acc _ _ _ (getL_eq getType i j k z)]

theorem getJ_eq (getType : Int) (i : Fin 256) (x : Level2) (j : Fin 256)
    (st : Nat × List String) :
    getJ getType i x j st =
      (st.1 + ((List.finRange 256).map fun k =>
          ((List.finRange 256).map fun l => getCount getType (leaf2 x j k l)).sum).sum,
        st.2 ++ ((List.finRange 256).map fun k =>
          ((List.finRange 256).map fun l =>
            getText getType (leaf2 x j k l) (Sprintf4 i j k l)).flatten).flatten) := by
  unfold getJ leaf2
  cases h : x j with
  | none =>
    simp only [getCount_zero, getText_zero, sum_map_zero, flatten_map_nil, Nat.add_zero,
      List.append_nil]
  | some y =>
    simp only []
    rw [loop256_acc _ _ _ (getK_eq getType i j y)]

theorem getI_eq (getType : Int) (t : Level1) (i : Fin 256) (st : Nat × List String) :
    getI getType t i st =
      (st.1 + ((List.finRange 256).map fun j =>
          ((List.finRange 256).map fun k =>
            ((List.finRange 256).map fun l => getCount getType (leafAt t i j k l)).sum).sum).sum,
        st.2 ++ ((List.finRange 256).map fun j =>
          ((List.finRange 256).map fun k =>
            ((List.finRange 256).map fun l =>
              getText getType (leafAt t i j k l) (Sprintf4 i j k l)).flatten).flatten).flatten) := by
  unfold getI
  cases h : t i with
  | none =>
    have hl : ∀ j k l, leafAt t i j k l = 0 := fun j k l => by simp [leafAt, h]
    simp only [hl, getCount_zero, getText_zero, sum_map_zero, flatten_map_nil, Nat.add_zero,
      List.append_nil]
  | some x =>
    have hl : ∀ j k l, leafAt t i j k l = leaf2 x j k l := fun j k l => by
      simp only [leafAt, h, leaf2, leaf3]
    simp only [hl]
    rw [loop256_acc _ _ _ (getJ_eq getType i x)]

/-- Both results of `get` as four nested sums and concatenations over the
guarded reads. -/
theorem get_eq (ip : ipVisitS) (getType : Int) :
    get ip getType =
      (((List.finRange 256).map fun i =>
          ((List.finRange 256).map fun j =>
            ((List.finRange 256).map fun k =>
              ((List.finRange 256).map fun l =>
                getCount getType (leafAt ip.IpList i j k l)).sum).sum).sum).sum,
        ((List.finRange 256).map fun i =>
          ((List.finRange 256).map fun j =>
            ((List.finRange 256).map fun k =>
              ((List.finRange 256).map fun l =>
                getText getType (leafAt ip.IpList i j k l)
                  (Sprintf4 i j k l)).flatten).flatten).flatten).flatten) := by
  unfold get
  rw [loop256_acc_init _ _ _ (getI_eq getType ip.IpList)]

theorem map_flatten_finRange {α β : Type} (g : α → β) (f : Fin 256 → List α) :
    ((List.finRange 256).map f).flatten.map g =
      ((List.finRange 256).map fun idx => (f idx).map g).flatten := by
  rw [List.map_flatten, List.map_map]
  rfl

theorem getText_two (v : Int) (a b c d : Fin 256) :
    getText 2 v (Sprintf4 a b c d) =
      (if v = 0 then [] else [((a, b, c, d) : Addr)]).map dotted := by
  unfold getText dotted
  split_ifs with h1 h2
  · rfl
  · exact absurd h2 (by decide)
  · rfl

theorem getCount_one (v : Int) : getCount 1 v = if v = 0 then 0 else 1 := by
  unfold getCount
  split_ifs with h1 h2
  · rfl
  · rfl
  · exact absurd rfl h2

/-- `GetAll` lists the dotted texts of the subscripts with a nonzero guarded
read, in loop order. -/
theorem GetAll_eq (ip : ipVisitS) : GetAll ip = (liveAddrs ip.IpList).map dotted := by
  have h := congrArg Prod.snd (get_eq ip 2)
  unfold GetAll
  rewrite [h]
  unfold liveAddrs liveA liveB liveC
  simp only [map_flatten_finRange, getText_two]

/-- `GetLen` is the number of nonzero guarded reads, as four nested sums. -/
theorem GetLen_eq (ip : ipVisitS) :
    GetLen ip =
      ((List.finRange 256).map fun i =>
        ((List.finRange 256).map fun j =>
          ((List.finRange 256).map fun k =>
            ((List.finRange 256).map fun l =>
              if leafAt ip.IpList i j k l = 0 then 0 else 1).sum).sum).sum).sum := by
  have h := congrArg Prod.fst (get_eq ip 1)
  unfold GetLen
  rewrite [h]
  simp only [getCount_one]

/-! ## The enumeration is complete and ascending -/

theorem mem_flatten_finRange {α : Type} (f : Fin 256 → List α) (q : α) :
    q ∈ ((List.finRange 256).map f).flatten ↔ ∃ idx, q ∈ f idx := by
  rw [List.mem_flatten]
  constructor
  · rintro ⟨l, hl, hq⟩
    obtain ⟨idx, -, rfl⟩ := List.mem_map.mp hl
    exact ⟨idx, hq⟩
  · rintro ⟨idx, hq⟩
    exact ⟨f idx, List.mem_map_of_mem f (List.mem_finRange idx), hq⟩

/-- Pieces that are each ascending, and ascending from one index to a later
one, concatenate in index order to an ascending list. -/
theorem pairwise_flatten_finRange {α : Type} (R : α → α → Prop) (f : Fin 256 → List α)
    (h1 : ∀ idx, (f idx).Pairwise R)
    (h2 : ∀ i j, i < j → ∀ p ∈ f i, ∀ q ∈ f j, R p q) :
    (((List.finRange 256).map f).flatten).Pairwise R := by
  rw [List.pairwise_flatten]
  constructor
  · intro l hl
    obtain ⟨idx, -, rfl⟩ := List.mem_map.mp hl
    exact h1 idx
  · rw [List.pairwise_map]
    exact (List.pairwise_lt_finRange 256).imp (fun {i j} hij => h2 i j hij)

theorem mem_liveC (t : Level1) (a b c : Fin 256) (p : Addr) :
    p ∈ liveC t a b c ↔ ∃ d, leafAt t a b c d ≠ 0 ∧ p = (a, b, c, d) := by
  unfold liveC
  rw [mem_flatten_finRange]
  constructor
  · rintro ⟨d, hd⟩
    by_cases h0 : leafAt t a b c d = 0
    · simp [h0] at hd
    · simp only [h0, if_false, List.mem_singleton] at hd
      exact ⟨d, h0, hd⟩
  · rintro ⟨d, h0, hp⟩
    exact ⟨d, by simp [h0, hp]⟩

theorem mem_liveB (t : Level1) (a b : Fin 256) (p : Addr) :
    p ∈ liveB t a b ↔ ∃ c d, leafAt t a b c d ≠ 0 ∧ p = (a, b, c, d) := by
  unfold liveB
  rw [mem_flatten_finRange]
  simp only [mem_liveC]

theorem mem_liveA (t : Level1) (a : Fin 256) (p : Addr) :
    p ∈ liveA t a ↔ ∃ b c d, leafAt t a b c d ≠ 0 ∧ p = (a, b, c, d) := by
  unfold liveA
  rw [mem_flatten_finRange]
  simp only [mem_liveB]

/-- The enumeration holds exactly the subscripts with a nonzero guarded
read. -/
theorem mem_liveAddrs (t : Level1) (p : Addr) : p ∈ liveAddrs t ↔ leafOf t p ≠ 0 := by
  unfold liveAddrs leafOf
  rw [mem_flatten_finRange]
  simp only [mem_liveA]
  constructor
  · rintro ⟨a, b, c, d, h0, rfl⟩
    exact h0
  · intro h0
    exact ⟨p.1, p.2.1, p.2.2.1, p.2.2.2, h0, rfl⟩

theorem pairwise_liveC (t : Level1) (a b c : Fin 256) : (liveC t a b c).Pairwise addrLt := by
  unfold liveC
  apply pairwise_flatten_finRange
  · intro d
    split_ifs
    · exact List.Pairwise.nil
    · exact List.pairwise_singleton _ _
  · intro d1 d2 hlt p hp q hq
    split_ifs at hp hq
    · simp at hp
    · simp at hp
    · simp at hq
    · rw [List.mem_singleton] at hp hq
      subst hp
      subst hq
      exact Or.inr ⟨rfl, Or.inr ⟨rfl, Or.inr ⟨rfl, hlt⟩⟩⟩

theorem pairwise_liveB (t : Level1) (a b : Fin 256) : (liveB t a b).Pairwise addrLt := by
  unfold liveB
  apply pairwise_flatten_finRange
  · exact fun c => pairwise_liveC t a b c
  · intro c1 c2 hlt p hp q hq
    obtain ⟨d1, -, rfl⟩ := (mem_liveC t a b c1 p).mp hp
    obtain ⟨d2, -, rfl⟩ := (mem_liveC t a b c2 q).mp hq
    exact Or.inr ⟨rfl, Or.inr ⟨rfl, Or.inl hlt⟩⟩

theorem pairwise_liveA (t : Level1) (a : Fin 256) : (liveA t a).Pairwise addrLt := by
  unfold liveA
  apply pairwise_flatten_finRange
  · exact fun b => pairwise_liveB t a b
  · intro b1 b2 hlt p hp q hq
    obtain ⟨c1, d1, -, rfl⟩ := (mem_liveB t a b1 p).mp hp
    obtain ⟨c2, d2, -, rfl⟩ := (mem_liveB t a b2 q).mp hq
    exact Or.inr ⟨rfl, Or.inl hlt⟩

/-- The enumeration is strictly ascending in the lexicographic order of the
octet tuples. -/
theorem pairwise_liveAddrs (t : Level1) : (liveAddrs t).Pairwise addrLt := by
  unfold liveAddrs
  apply pairwise_flatten_finRange
  · exact fun a => pairwise_liveA t a
  · intro a1 a2 hlt p hp q hq
    obtain ⟨b1, c1, d1, -, rfl⟩ := (mem_liveA t a1 p).mp hp
    obtain ⟨b2, c2, d2, -, rfl⟩ := (mem_liveA t a2 q).mp hq
    exact Or.inl hlt

/-! ## Reachable stores -/

/-- The fourth subscript of a well-formed address is not `0`. -/
theorem oct3_ne_zero (ipStr : String) (h : (splitIp ipStr).2 = 0) :
    oct (splitIp ipStr).1 3 ≠ 0 := by
  obtain ⟨a, b, c, d, he, -, -, -, hd, hd0⟩ := splitIp_octets ipStr h
  rw [he]
  intro h0
  have := congrArg Fin.val h0
  simp only [oct, List.getD_cons_zero, List.getD_cons_succ, Fin.val_zero] at this
  omega

theorem zeroColumn_Add (i : ipVisitS) (ipStr : String) (h : zeroColumn i.IpList) :
    zeroColumn (Add i ipStr).1.IpList := by
  intro a b c
  by_cases hs : (splitIp ipStr).2 = 0
  · rw [Add_leafAt i ipStr hs, if_neg, h a b c]
    exact fun hh => oct3_ne_zero ipStr hs hh.2.2.2.symm
  · rw [Add_malformed i ipStr hs]
    exact h a b c

theorem zeroColumn_AddBanTime (i : ipVisitS) (ipStr : String) (banTime : Int)
    (h : zeroColumn i.IpList) : zeroColumn (AddBanTime i ipStr banTime).1.IpList := by
  intro a b c
  by_cases hs : (splitIp ipStr).2 = 0
  · rw [AddBanTime_leafAt i ipStr banTime hs, if_neg, h a b c]
    exact fun hh => oct3_ne_zero ipStr hs hh.2.2.2.symm
  · rw [AddBanTime_malformed i ipStr banTime hs]
    exact h a b c

theorem zeroColumn_tick (i : ipVisitS) (h : zeroColumn i.IpList) :
    zeroColumn (CheckIPListTick i).IpList := by
  intro a b c
  rw [leafAt_tick, h a b c, age_zero]

/-- In every store reached from one without a leaf at fourth subscript `0`
there is still no such leaf. -/
theorem zeroColumn_run (ops : List Op) :
    ∀ i : ipVisitS, zeroColumn i.IpList → zeroColumn (run i ops).IpList := by
  induction ops with
  | nil => intro i h; exact h
  | cons op ops ih =>
    intro i h
    rw [run_cons]
    apply ih
    cases op with
    | add ipStr => exact zeroColumn_Add i ipStr h
    | ban ipStr banTime => exact zeroColumn_AddBanTime i ipStr banTime h
    | tick => exact zeroColumn_tick i h

theorem zeroColumn_reachable (limit cycleSecond visitLimitBanTime : Int) (i0 : ipVisitS)
    (ops : List Op) (h0 : InitIpVisit limit cycleSecond visitLimitBanTime = Except.ok i0) :
    zeroColumn (run i0 ops).IpList := by
  obtain ⟨he, -⟩ := InitIpVisit_ok _ _ _ i0 h0
  subst he
  exact zeroColumn_run ops _ (fun a b c => leafAt_nilArray a b c 0)

/-- In a store without a leaf at fourth subscript `0`, the guarded read of a
tuple is nonzero exactly when the tuple is an address (fourth octet nonzero)
on which `IsBan` answers a nonzero value. -/
theorem leafOf_ne_zero_iff (i : ipVisitS) (hz : zeroColumn i.IpList) (p : Addr) :
    leafOf i.IpList p ≠ 0 ↔ p.2.2.2 ≠ 0 ∧ (IsBan i (dotted p)).1 ≠ 0 := by
  unfold leafOf dotted
  by_cases hd : p.2.2.2 = 0
  · rw [hd, hz]
    simp
  · rw [IsBan_Sprintf4 i _ _ _ _ hd]
    simp [hd]

/-- The number of tuples with a property, as four nested sums. -/
theorem card_filter_nested (P : Addr → Prop) [DecidablePred P] :
    (Finset.univ.filter P).card =
      ((List.finRange 256).map fun a =>
        ((List.finRange 256).map fun b =>
          ((List.finRange 256).map fun c =>
            ((List.finRange 256).map fun d =>
              if P (a, b, c, d) then 1 else 0).sum).sum).sum).sum := by
  rw [Finset.card_filter]
  simp only [Fintype.sum_prod_type, Fin.sum_univ_def]

theorem octets_injective (p q : Addr) (h : octets p = octets q) : p = q := by
  unfold octets at h
  simp only [List.cons.injEq, Nat.cast_inj, and_true] at h
  obtain ⟨h0, h1, h2, h3⟩ := h
  exact Prod.ext (Fin.ext h0) (Prod.ext (Fin.ext h1) (Prod.ext (Fin.ext h2) (Fin.ext h3)))

theorem splitIp_dotted (p : Addr) (hd : p.2.2.2 ≠ 0) : splitIp (dotted p) = (octets p, 0) :=
  splitIp_Sprintf4 p.1 p.2.1 p.2.2.1 p.2.2.2 hd

theorem addrLt_irrefl (p : Addr) : ¬ addrLt p p := by
  unfold addrLt
  simp

/-! ## Repeated sweeps -/

theorem ticks_succ (k : Nat) (ip : ipVisitS) :
    ticks (k + 1) ip = CheckIPListTick (ticks k ip) := by
  induction k generalizing ip with
  | zero => rfl
  | succ k ih => rw [ticks, ih (CheckIPListTick ip), ticks]

/-- A sweep over a store without nonzero guarded read leaves every slot of the
root array nil. -/
theorem tick_of_all_zero (ip : ipVisitS) (h : ∀ a b c d, leafAt ip.IpList a b c d = 0)
    (a : Fin 256) : (CheckIPListTick ip).IpList a = none := by
  cases hx : (CheckIPListTick ip).IpList a with
  | none => rfl
  | some x =>
    obtain ⟨b, c, d, hne⟩ := (alloc2_tick ip a).mp ⟨x, hx⟩
    exact absurd (h a b c d) hne

theorem leafAt_of_root_nil (t : Level1) (h : ∀ a, t a = none) (a b c d : Fin 256) :
    leafAt t a b c d = 0 := by
  unfold leafAt
  rw [h a]

/-- On a store whose guarded reads are all zero `GetLen` is `0` and `GetAll`
is empty. -/
theorem get_of_all_zero (ip : ipVisitS) (h : ∀ a b c d, leafAt ip.IpList a b c d = 0) :
    GetLen ip = 0 ∧ GetAll ip = [] := by
  constructor
  · rw [GetLen_eq]
    simp only [h, if_true, sum_map_zero]
  · rw [GetAll_eq]
    have hnil : liveAddrs ip.IpList = [] := by
      apply List.eq_nil_iff_forall_not_mem.mpr
      intro p hp
      exact (mem_liveAddrs _ p).mp hp (h _ _ _ _)
    rw [hnil]
    rfl

/-! ## The loops of `GetSizeOf` -/

/-- A loop that adds `w idx` to a `uintptr` at every index ends with the total
added, wrapped once. -/
theorem foldl_addmod (m : Nat) (body : Fin 256 → Nat → Nat) (w : Fin 256 → Nat)
    (hbody : ∀ idx s, body idx s = (s + w idx) % m)
    (ls : List (Fin 256)) (s : Nat) (hs : s < m) :
    ls.foldl (fun s idx => body idx s) s = (s + (ls.map w).sum) % m := by
  induction ls generalizing s with
  | nil =>
    rw [List.foldl_nil, List.map_nil, List.sum_nil, Nat.add_zero, Nat.mod_eq_of_lt hs]
  | cons x xs ih =>
    have hm : 0 < m := Nat.lt_of_le_of_lt (Nat.zero_le s) hs
    rw [List.foldl_cons, hbody, ih _ (Nat.mod_lt _ hm), List.map_cons, List.sum_cons,
      Nat.mod_add_mod, Nat.add_assoc]

theorem loop256_addmod (m : Nat) (body : Fin 256 → Nat → Nat) (w : Fin 256 → Nat)
    (hbody : ∀ idx s, body idx s = (s + w idx) % m) (s : Nat) (hs : s < m) :
    loop256 body s = (s + ((List.finRange 256).map w).sum) % m := by
  unfold loop256
  exact foldl_addmod m body w hbody _ s hs

theorem word_pos (p : Nat) : 0 < 2 ^ (8 * p) := Nat.two_pow_pos (8 * p)

theorem sizeK_eq (p : Nat) (y : Level3) (k : Fin 256) (s : Nat) :
    sizeK p y k s = (s + weightK p (y k)) % 2 ^ (8 * p) := by
  unfold sizeK weightK addPtr mulPtr
  cases y k with
  | none => rfl
  | some z =>
    simp only []
    rw [Nat.add_mod_mod, Nat.mod_add_mod, Nat.add_assoc, Nat.one_mul]

theorem sizeJ_eq (p : Nat) (x : Level2) (j : Fin 256) (s : Nat) :
    sizeJ p x j s = (s + weightJ p (x j)) % 2 ^ (8 * p) := by
  unfold sizeJ weightJ addPtr
  cases x j with
  | none => rfl
  | some y =>
    simp only []
    rw [loop256_addmod _ _ _ (sizeK_eq p y) _ (Nat.mod_lt _ (word_pos p)), Nat.mod_add_mod,
      Nat.add_assoc]

theorem sizeI_eq (p : Nat) (t : Level1) (i : Fin 256) (s : Nat) :
    sizeI p t i s = (s + weightI p (t i)) % 2 ^ (8 * p) := by
  unfold sizeI weightI addPtr
  cases t i with
  | none => rfl
  | some x =>
    simp only []
    rw [loop256_addmod _ _ _ (sizeJ_eq p x) _ (Nat.mod_lt _ (word_pos p)), Nat.mod_add_mod,
      Nat.add_assoc]

/-- `GetSizeOf` is the size of the root array plus what each of its slots
adds, wrapped at the width of a `uintptr`. -/
theorem GetSizeOf_eq_weights (p : Nat) (ip : ipVisitS) :
    GetSizeOf p ip =
      (256 * p + ((List.finRange 256).map fun i => weightI p (ip.IpList i)).sum) %
        2 ^ (8 * p) := by
  unfold GetSizeOf
  rw [loop256_addmod _ _ _ (sizeI_eq p ip.IpList) _ (Nat.mod_lt _ (word_pos p)),
    Nat.mod_add_mod]

/-! ## The estimate in terms of allocated arrays -/

theorem ite_one_mul (c : Prop) [Decidable c] (p : Nat) :
    (if c then p else 0) = p * (if c then 1 else 0) := by
  split_ifs <;> simp

theorem weightK_eq (p : Nat) (t : Level1) (a b c : Fin 256) (x : Level2) (y : Level3)
    (hx : t a = some x) (hy : x b = some y) :
    weightK p (y c) = p + if alloc4 t a b c then 256 else 0 := by
  obtain hz | ⟨z, hz⟩ := Option.eq_none_or_eq_some (y c)
  · have h4 : ¬ alloc4 t a b c := fun ⟨x1, y1, z, h, h1, h2⟩ => by
      rw [hx] at h; cases h; rw [hy] at h1; cases h1; rw [hz] at h2; cases h2
    rw [hz, if_neg h4]
    rfl
  · have h4 : alloc4 t a b c := ⟨x, y, z, hx, hy, hz⟩
    rw [hz, if_pos h4]
    rfl

theorem weightJ_eq (p : Nat) (t : Level1) (a b : Fin 256) (x : Level2) (hx : t a = some x) :
    weightJ p (x b) =
      p + ∑ c : Fin 256, ((if alloc3 t a b then p else 0) +
        (if alloc4 t a b c then 256 else 0)) := by
  obtain hy | ⟨y, hy⟩ := Option.eq_none_or_eq_some (x b)
  · have h3 : ¬ alloc3 t a b := fun ⟨x1, y, h, h1⟩ => by
      rw [hx] at h; cases h; rw [hy] at h1; cases h1
    have h4 : ∀ c, ¬ alloc4 t a b c := fun c ⟨x1, y, z, h, h1, _⟩ => by
      rw [hx] at h; cases h; rw [hy] at h1; cases h1
    rw [hy]
    simp only [weightJ, h3, h4, if_false, Nat.add_zero, Finset.sum_const_zero]
  · have h3 : alloc3 t a b := ⟨x, y, hx, hy⟩
    rw [hy]
    simp only [weightJ, h3, if_true, ← Fin.sum_univ_def, weightK_eq p t a b _ x y hx hy]

theorem weightI_eq (p : Nat) (t : Level1) (a : Fin 256) :
    weightI p (t a) =
      p + ∑ b : Fin 256, ((if alloc2 t a then p else 0) +
        ∑ c : Fin 256, ((if alloc3 t a b then p else 0) +
          (if alloc4 t a b c then 256 else 0))) := by
  obtain hx | ⟨x, hx⟩ := Option.eq_none_or_eq_some (t a)
  · have h2 : ¬ alloc2 t a := fun ⟨x, h⟩ => by rw [hx] at h; cases h
    have h3 : ∀ b, ¬ alloc3 t a b := fun b ⟨x, y, h, _⟩ => by rw [hx] at h; cases h
    have h4 : ∀ b c, ¬ alloc4 t a b c := fun b c ⟨x, y, z, h, _, _⟩ => by rw [hx] at h; cases h
    rw [hx]
    simp only [weightI, h2, h3, h4, if_false, Nat.add_zero, Finset.sum_const_zero]
  · have h2 : alloc2 t a := ⟨x, hx⟩
    rw [hx]
    simp only [weightI, h2, if_true, ← Fin.sum_univ_def, weightJ_eq p t a _ x hx]

theorem count2_eq (t : Level1) : count2 t = ∑ a : Fin 256, if alloc2 t a then 1 else 0 := by
  unfold count2
  rw [Finset.card_filter]

theorem count3_eq (t : Level1) :
    count3 t = ∑ a : Fin 256, ∑ b : Fin 256, if alloc3 t a b then 1 else 0 := by
  unfold count3
  rw [Finset.card_filter, Fintype.sum_prod_type]

theorem count4_eq (t : Level1) :
    count4 t = ∑ a : Fin 256, ∑ b : Fin 256, ∑ c : Fin 256, if alloc4 t a b c then 1 else 0 := by
  unfold count4
  rw [Finset.card_filter]
  simp only [Fintype.sum_prod_type]

theorem sum_weights (p : Nat) (t : Level1) :
    ((List.finRange 256).map fun i => weightI p (t i)).sum =
      256 * p * (1 + count2 t + count3 t) + 256 * count4 t := by
  rw [← Fin.sum_univ_def, count2_eq, count3_eq, count4_eq]
  simp only [weightI_eq, Finset.sum_add_distrib, Finset.sum_const, Finset.card_univ,
    Fintype.card_fin, smul_eq_mul]
  simp only [ite_one_mul _ p, ite_one_mul _ 256, ← Finset.mul_sum]
  ring

theorem count_bounds (t : Level1) :
    count2 t ≤ 256 ∧ count3 t ≤ 65536 ∧ count4 t ≤ 16777216 := by
  refine ⟨?_, ?_, ?_⟩
  · unfold count2
    refine (Finset.card_filter_le _ _).trans ?_
    rw [Finset.card_univ, Fintype.card_fin]
  · unfold count3
    refine (Finset.card_filter_le _ _).trans ?_
    rw [Finset.card_univ, Fintype.card_prod, Fintype.card_fin]
  · unfold count4
    refine (Finset.card_filter_le _ _).trans ?_
    rw [Finset.card_univ, Fintype.card_prod, Fintype.card_prod, Fintype.card_fin]

theorem alloc2_onePath (o0 o1 o2 : Fin 256) (z : Leaves) (a : Fin 256) :
    alloc2 (onePath o0 o1 o2 z) a ↔ a = o0 := by
  unfold alloc2 onePath
  by_cases h : a = o0
  · subst h
    simp
  · simp [Function.update_noteq h, nilArray, h]

theorem alloc3_onePath (o0 o1 o2 : Fin 256) (z : Leaves) (a b : Fin 256) :
    alloc3 (onePath o0 o1 o2 z) a b ↔ a = o0 ∧ b = o1 := by
  unfold alloc3 onePath
  by_cases h : a = o0
  · subst h
    by_cases h1 : b = o1
    · subst h1
      simp
    · simp [Function.update_noteq h1, nilArray, h1]
  · simp [Function.update_noteq h, nilArray, h]

theorem alloc4_onePath (o0 o1 o2 : Fin 256) (z : Leaves) (a b c : Fin 256) :
    alloc4 (onePath o0 o1 o2 z) a b c ↔ a = o0 ∧ b = o1 ∧ c = o2 := by
  unfold alloc4 onePath
  by_cases h : a = o0
  · subst h
    by_cases h1 : b = o1
    · subst h1
      by_cases h2 : c = o2
      · subst h2
        simp
      · simp [Function.update_noteq h2, nilArray, h2]
    · simp [Function.update_noteq h1, nilArray, h1]
  · simp [Function.update_noteq h, nilArray, h]

theorem counts_onePath (o0 o1 o2 : Fin 256) (z : Leaves) :
    count2 (onePath o0 o1 o2 z) = 1 ∧ count3 (onePath o0 o1 o2 z) = 1 ∧
      count4 (onePath o0 o1 o2 z) = 1 := by
  refine ⟨?_, ?_, ?_⟩
  · unfold count2
    rw [Finset.card_eq_one]
    refine ⟨o0, ?_⟩
    ext a
    simp [alloc2_onePath]
  · unfold count3
    rw [Finset.card_eq_one]
    refine ⟨(o0, o1), ?_⟩
    ext q
    simp [alloc3_onePath, Prod.ext_iff]
  · unfold count4
    rw [Finset.card_eq_one]
    refine ⟨(o0, o1, o2), ?_⟩
    ext q
    simp [alloc4_onePath, Prod.ext_iff]

theorem counts_nilArray :
    count2 nilArray = 0 ∧ count3 nilArray = 0 ∧ count4 nilArray = 0 := by
  refine ⟨?_, ?_, ?_⟩
  · unfold count2
    rw [Finset.card_eq_zero, Finset.filter_eq_empty_iff]
    rintro a - ⟨x, hx⟩
    cases hx
  · unfold count3
    rw [Finset.card_eq_zero, Finset.filter_eq_empty_iff]
    rintro q - ⟨x, y, hx, -⟩
    cases hx
  · unfold count4
    rw [Finset.card_eq_zero, Finset.filter_eq_empty_iff]
    rintro q - ⟨x, y, z, hx, -, -⟩
    cases hx

/-- After one `Add` on a well-formed address an empty store has exactly the
path of that address allocated. -/
theorem Add_empty_onePath (limit cycleSecond visitLimitBanTime : Int) (ipStr : String)
    (h : (splitIp ipStr).2 = 0) :
    ∃ z, (Add (emptyStore limit cycleSecond visitLimitBanTime) ipStr).1.IpList =
      onePath (oct (splitIp ipStr).1 0) (oct (splitIp ipStr).1 1) (oct (splitIp ipStr).1 2) z := by
  have hc : nil2Create (emptyStore limit cycleSecond visitLimitBanTime) (splitIp ipStr).1 =
      { emptyStore limit cycleSecond visitLimitBanTime with
        IpList := onePath (oct (splitIp ipStr).1 0) (oct (splitIp ipStr).1 1)
          (oct (splitIp ipStr).1 2) zeroLeaves } := rfl
  have hset : ∀ (z : Leaves) (v : Int),
      (thisIPSet { emptyStore limit cycleSecond visitLimitBanTime with
        IpList := onePath (oct (splitIp ipStr).1 0) (oct (splitIp ipStr).1 1)
          (oct (splitIp ipStr).1 2) z } (splitIp ipStr).1 v).IpList =
      onePath (oct (splitIp ipStr).1 0) (oct (splitIp ipStr).1 1) (oct (splitIp ipStr).1 2)
        (Function.update z (oct (splitIp ipStr).1 3) v) := by
    intro z v
    unfold thisIPSet onePath
    simp only [Function.update_same, Function.update_idem]
  unfold Add
  simp only [h, ne_eq, not_true_eq_false, if_false, hc]
  split_ifs
  · exact ⟨_, rfl⟩
  · exact ⟨_, hset _ _⟩
  · exact ⟨_, hset _ _⟩
  · exact ⟨_, rfl⟩

/-! ## The claims -/

/-- C1: under a valid configuration (limit in [0,127], over-limit ban in
[1,127]), on a well-formed address whose stored value is 0, `limit + 1` calls
of `Add` in a row return 1, 2, ..., limit and then minus the over-limit ban. -/
theorem Add_counts_to_limit_then_bans (i : ipVisitS) (ipStr : String)
    (hL : 0 ≤ i.limit ∧ i.limit ≤ 127)
    (hB : 1 ≤ i.visitLimitBanTime ∧ i.visitLimitBanTime ≤ 127)
    (hA : IsBan i ipStr = (0, true)) :
    (AddTimes i ipStr (i.limit.toNat + 1)).2 =
      (List.range i.limit.toNat).map (fun k : Nat => (k : Int) + 1) ++ [-i.visitLimitBanTime] := by
  obtain ⟨hs, hv⟩ := IsBan_true i ipStr 0 hA
  have h := AddTimes_from ipStr hs i.limit.toNat i 0 hL hB (by simpa using hv)
    (by simp only [Nat.cast_zero, zero_add]; omega)
  simpa using h

/-- C1, at limit 3 and over-limit ban 10: four calls on 10.0.0.1 in an empty
store return 1, 2, 3, -10. -/
theorem Add_counts_to_limit_then_bans_witness :
    (AddTimes (emptyStore 3 60 10) "10.0.0.1" 4).2 = [1, 2, 3, -10] :=
  Add_counts_to_limit_then_bans (emptyStore 3 60 10) "10.0.0.1" (by decide) (by decide)
    (by decide)

/-- C2: evaluation of `AddBanTime` where it departs from the clamp at `-127`:
on an address banned for 100 minutes, an extension by `-100` returns and
stores `56`, a visit count, because the `int8` sum `-200` wraps around before
it is compared with `-128`. -/
theorem AddBanTime_sum_wraps_around :
    IsBan (AddBanTime (emptyStore 3 60 10) "10.0.0.1" (-100)).1 "10.0.0.1" = (-100, true) ∧
    (AddBanTime (AddBanTime (emptyStore 3 60 10) "10.0.0.1" (-100)).1 "10.0.0.1" (-100)).2 = 56 ∧
    IsBan (AddBanTime (AddBanTime (emptyStore 3 60 10) "10.0.0.1" (-100)).1 "10.0.0.1" (-100)).1
      "10.0.0.1" = (56, true) := by
  decide

/-- C3: evaluation of `AddBanTime` on a permanently banned address: an
extension by `-1` returns and stores `127`, so the permanent ban is gone. -/
theorem AddBanTime_undoes_permanent :
    IsBan (AddBanTime (emptyStore 3 60 10) "10.0.0.1" (-128)).1 "10.0.0.1" = (-128, true) ∧
    (AddBanTime (AddBanTime (emptyStore 3 60 10) "10.0.0.1" (-128)).1 "10.0.0.1" (-1)).2 = 127 ∧
    IsBan (AddBanTime (AddBanTime (emptyStore 3 60 10) "10.0.0.1" (-128)).1 "10.0.0.1" (-1)).1
      "10.0.0.1" = (127, true) := by
  decide

/-- C4: one decay sweep ages every address pointwise: when `IsBan` answers
`(v, true)` before the sweep it answers `(age v, true)` after it, where `0`
and `-128` stay, a positive `v` becomes `v - 1` and a temporary ban `v`
becomes `v + 1`. -/
theorem tick_ages_pointwise (ip : ipVisitS) (ipStr : String) (v : Int) (hv : isInt8 v)
    (h : IsBan ip ipStr = (v, true)) :
    IsBan (CheckIPListTick ip) ipStr = (specAge v, true) := by
  obtain ⟨hs, hget⟩ := IsBan_true ip ipStr v h
  have hage : age v = specAge v := by
    unfold isInt8 at hv
    unfold age specAge wrap8
    split_ifs <;> omega
  rw [IsBan_valid _ ipStr hs]
  unfold thisIPGet at hget ⊢
  rw [leafAt_tick, hget, hage]

/-- C4, on the values of the specification: 3 becomes 2, -5 becomes -4, -128
stays and -10 becomes -9. -/
theorem tick_ages_pointwise_witness :
    IsBan (CheckIPListTick (AddTimes (emptyStore 3 60 10) "10.0.0.1" 3).1) "10.0.0.1" = (2, true) ∧
    IsBan (CheckIPListTick (AddBanTime (emptyStore 3 60 10) "10.0.0.1" (-5)).1) "10.0.0.1" =
      (-4, true) ∧
    IsBan (CheckIPListTick (AddBanTime (emptyStore 3 60 10) "10.0.0.1" (-128)).1) "10.0.0.1" =
      (-128, true) ∧
    IsBan (CheckIPListTick (AddTimes (emptyStore 3 60 10) "10.0.0.1" 4).1) "10.0.0.1" =
      (-9, true) :=
  ⟨(tick_ages_pointwise _ "10.0.0.1" 3 (by decide) (by decide)).trans (by decide),
   (tick_ages_pointwise _ "10.0.0.1" (-5) (by decide) (by decide)).trans (by decide),
   (tick_ages_pointwise _ "10.0.0.1" (-128) (by decide) (by decide)).trans (by decide),
   (tick_ages_pointwise _ "10.0.0.1" (-10) (by decide) (by decide)).trans (by decide)⟩

/-- C5: on every store and every well-formed address, `AddBanTime` with
`-128` returns `-128` and `IsBan` then answers `(-128, true)`. -/
theorem AddBanTime_permanent (i : ipVisitS) (ipStr : String) (h : (splitIp ipStr).2 = 0) :
    (AddBanTime i ipStr (-128)).2 = -128 ∧
      IsBan (AddBanTime i ipStr (-128)).1 ipStr = (-128, true) := by
  have hval : ∀ v, banVal (-128) v = -128 := fun v => by simp [banVal]
  refine ⟨?_, ?_⟩
  · rw [AddBanTime_result i ipStr _ h, hval]
  · rw [IsBan_valid _ ipStr h, AddBanTime_thisIPGet i ipStr _ h, hval]

/-- C5, on an address that counts visits in a store with other entries. -/
theorem AddBanTime_permanent_witness :
    (AddBanTime (AddTimes (emptyStore 3 60 10) "10.0.0.1" 2).1 "10.0.0.1" (-128)).2 = -128 ∧
      IsBan (AddBanTime (AddTimes (emptyStore 3 60 10) "10.0.0.1" 2).1 "10.0.0.1" (-128)).1
        "10.0.0.1" = (-128, true) :=
  AddBanTime_permanent (AddTimes (emptyStore 3 60 10) "10.0.0.1" 2).1 "10.0.0.1" (by decide)

/-- C6: on an address whose stored value `v` is negative, `Add` returns `v`
and leaves the whole store as it was. -/
theorem Add_banned_unchanged (i : ipVisitS) (ipStr : String) (v : Int)
    (h : IsBan i ipStr = (v, true)) (hv : v < 0) : Add i ipStr = (i, v) := by
  obtain ⟨hs, hget⟩ := IsBan_true i ipStr v h
  have hne : thisIPGet i (splitIp ipStr).1 ≠ 0 := by omega
  unfold Add
  simp only [hs, ne_eq, not_true_eq_false, if_false, nil2Create_of_ne_zero i _ hne, hget, hv,
    if_true]

/-- C6, on a permanently banned address. -/
theorem Add_banned_unchanged_witness :
    Add (AddBanTime (emptyStore 3 60 10) "10.0.0.1" (-128)).1 "10.0.0.1" =
      ((AddBanTime (emptyStore 3 60 10) "10.0.0.1" (-128)).1, -128) :=
  Add_banned_unchanged (AddBanTime (emptyStore 3 60 10) "10.0.0.1" (-128)).1 "10.0.0.1" (-128)
    (by decide) (by decide)

/-- C7: on an address that is not banned (stored value at least 0) and for a
ban time `m` in [-127,-1], `AddBanTime` returns `m` and `IsBan` then answers
`(m, true)`. -/
theorem AddBanTime_fresh_ban (i : ipVisitS) (ipStr : String) (v m : Int)
    (h : IsBan i ipStr = (v, true)) (hv : 0 ≤ v) (hm : -127 ≤ m ∧ m ≤ -1) :
    (AddBanTime i ipStr m).2 = m ∧ IsBan (AddBanTime i ipStr m).1 ipStr = (m, true) := by
  obtain ⟨hs, hget⟩ := IsBan_true i ipStr v h
  have hval : banVal m v = m := by
    unfold banVal
    split_ifs <;> omega
  refine ⟨?_, ?_⟩
  · rw [AddBanTime_result i ipStr _ hs, hget, hval]
  · rw [IsBan_valid _ ipStr hs, AddBanTime_thisIPGet i ipStr _ hs, hget, hval]

/-- C7, on an address with two counted visits. -/
theorem AddBanTime_fresh_ban_witness :
    (AddBanTime (AddTimes (emptyStore 3 60 10) "10.0.0.1" 2).1 "10.0.0.1" (-5)).2 = -5 ∧
      IsBan (AddBanTime (AddTimes (emptyStore 3 60 10) "10.0.0.1" 2).1 "10.0.0.1" (-5)).1
        "10.0.0.1" = (-5, true) :=
  AddBanTime_fresh_ban (AddTimes (emptyStore 3 60 10) "10.0.0.1" 2).1 "10.0.0.1" 2 (-5)
    (by decide) (by decide) (by decide)

/-- C8: from the empty store of a valid configuration, no sequence of `Add`
calls, decay sweeps and `AddBanTime` calls with ban time in [-127,-1] gives
any address the value `-128`. -/
theorem no_permanent_ban_unasked (limit cycleSecond visitLimitBanTime : Int) (i0 : ipVisitS)
    (ops : List Op) (h0 : InitIpVisit limit cycleSecond visitLimitBanTime = Except.ok i0)
    (hops : ∀ op ∈ ops, Op.finite op) :
    (∀ a b c d : Fin 256, leafAt (run i0 ops).IpList a b c d ≠ -128) ∧
      ∀ ipStr : String, (IsBan (run i0 ops) ipStr).1 ≠ -128 := by
  obtain ⟨he, hL, -, hB⟩ := InitIpVisit_ok _ _ _ i0 h0
  have hinit : noPermanent i0 := by
    subst he
    exact ⟨hL, hB, fun a b c d => by rw [emptyStore, leafAt_nilArray]; omega⟩
  obtain ⟨-, -, hleaf⟩ := noPermanent_run ops i0 hinit hops
  refine ⟨fun a b c d => ?_, fun ipStr => ?_⟩
  · have := hleaf a b c d
    omega
  · rw [IsBan_eq]
    split_ifs
    · decide
    · have := hleaf (oct (splitIp ipStr).1 0) (oct (splitIp ipStr).1 1)
        (oct (splitIp ipStr).1 2) (oct (splitIp ipStr).1 3)
      unfold thisIPGet
      show leafAt _ _ _ _ _ ≠ -128
      omega

/-- C8, on a history that drives a ban past `-128` by two extensions of
`-100`. -/
theorem no_permanent_ban_unasked_witness :
    (IsBan (run (emptyStore 3 60 10)
      [Op.add "10.0.0.1", Op.ban "10.0.0.1" (-100), Op.ban "10.0.0.1" (-100), Op.tick,
        Op.add "10.0.0.1"]) "10.0.0.1").1 ≠ -128 :=
  (no_permanent_ban_unasked 3 60 10 (emptyStore 3 60 10)
    [Op.add "10.0.0.1", Op.ban "10.0.0.1" (-100), Op.ban "10.0.0.1" (-100), Op.tick,
      Op.add "10.0.0.1"] (by rfl) (by simp [Op.finite])).2 "10.0.0.1"

/-- C9: `splitIp` returns code `0` exactly on the strings with four
dot-separated parts that each parse as an integer in [0,255], the fourth
nonzero; then it returns the four parsed values in order, and on every other
string it returns the nil slice with code `-1`. -/
theorem splitIp_accepts_iff (ipStr : String) :
    ((splitIp ipStr).2 = 0 ↔ specAccepts ipStr) ∧
    (specAccepts ipStr →
      (splitIp ipStr).2 = 0 ∧
        (splitIp ipStr).1.map some = (splitDot ipStr.toList).map Atoi) ∧
    (¬ specAccepts ipStr → splitIp ipStr = ([], -1)) := by
  have hacc : specAccepts ipStr →
      (splitIp ipStr).2 = 0 ∧
        (splitIp ipStr).1.map some = (splitDot ipStr.toList).map Atoi := by
    intro h
    obtain ⟨a, b, c, d, he, hparts, -⟩ := splitIp_accepts ipStr h
    rw [he, hparts]
    exact ⟨rfl, rfl⟩
  refine ⟨⟨fun h => ?_, fun h => (hacc h).1⟩, hacc, splitIp_rejects ipStr⟩
  by_contra hn
  rw [splitIp_rejects ipStr hn] at h
  exact absurd h (by decide)

/-- C9, on one accepted string and the three rejected strings of the
specification. -/
theorem splitIp_accepts_iff_witness :
    (specAccepts "10.0.0.1" ∧ splitIp "10.0.0.1" = ([10, 0, 0, 1], 0)) ∧
    (¬ specAccepts "999.1.1.1" ∧ splitIp "999.1.1.1" = ([], -1)) ∧
    (¬ specAccepts "1.2.3" ∧ splitIp "1.2.3" = ([], -1)) ∧
    (¬ specAccepts "1.2.3.0" ∧ splitIp "1.2.3.0" = ([], -1)) :=
  ⟨⟨(splitIp_accepts_iff "10.0.0.1").1.mp (by decide), by decide⟩,
   ⟨fun h => absurd ((splitIp_accepts_iff "999.1.1.1").1.mpr h) (by decide), by decide⟩,
   ⟨fun h => absurd ((splitIp_accepts_iff "1.2.3").1.mpr h) (by decide), by decide⟩,
   ⟨fun h => absurd ((splitIp_accepts_iff "1.2.3.0").1.mpr h) (by decide), by decide⟩⟩

/-- C10: on a string that `splitIp` rejects `IsBan` answers `(0, false)`; on
a string that `splitIp` accepts the second component is `true`; and when the
store comes from the empty store by a history in which no call wrote that
address, the answer is `(0, true)`. -/
theorem IsBan_malformed_or_unrecorded (i : ipVisitS) (ipStr : String) :
    ((splitIp ipStr).2 ≠ 0 → IsBan i ipStr = (0, false)) ∧
    ((splitIp ipStr).2 = 0 → (IsBan i ipStr).2 = true) ∧
    ((splitIp ipStr).2 = 0 →
      ∀ (limit cycleSecond visitLimitBanTime : Int) (i0 : ipVisitS) (ops : List Op),
        InitIpVisit limit cycleSecond visitLimitBanTime = Except.ok i0 →
        i = run i0 ops →
        (∀ op ∈ ops, ¬ Op.writes (splitIp ipStr).1 op) →
        IsBan i ipStr = (0, true)) := by
  refine ⟨fun h => ?_, fun h => ?_, fun h limit cycleSecond visitLimitBanTime i0 ops h0 hi hops => ?_⟩
  · rw [IsBan_eq, if_pos h]
  · rw [IsBan_valid i ipStr h]
  · obtain ⟨he, -⟩ := InitIpVisit_ok _ _ _ i0 h0
    have hzero : thisIPGet i0 (splitIp ipStr).1 = 0 := by
      subst he
      exact leafAt_nilArray _ _ _ _
    rw [IsBan_valid i ipStr h, hi, unwritten_run ipStr h ops i0 hzero hops]

/-- C10, on a malformed string and on an address whose neighbours were
written and swept. -/
theorem IsBan_malformed_or_unrecorded_witness :
    IsBan (run (emptyStore 3 60 10) [Op.add "10.0.0.1", Op.ban "10.0.0.9" (-5), Op.tick])
      "1.2.3.0" = (0, false) ∧
    IsBan (run (emptyStore 3 60 10) [Op.add "10.0.0.1", Op.ban "10.0.0.9" (-5), Op.tick])
      "10.0.0.2" = (0, true) :=
  ⟨(IsBan_malformed_or_unrecorded _ "1.2.3.0").1 (by decide),
   (IsBan_malformed_or_unrecorded _ "10.0.0.2").2.2 (by decide) 3 60 10 (emptyStore 3 60 10)
     [Op.add "10.0.0.1", Op.ban "10.0.0.9" (-5), Op.tick] (by rfl) rfl (by decide)⟩

/-- C11: in a store reached from the empty store by `Add`, `AddBanTime` and
decay sweeps, `GetLen` is the number of octet tuples with nonzero fourth octet
on whose address `IsBan` answers a nonzero value; no leaf with fourth
subscript `0` is ever set, so the slot the traversal also visits adds
nothing. -/
theorem GetLen_counts_nonzero (limit cycleSecond visitLimitBanTime : Int) (i0 : ipVisitS)
    (ops : List Op) (h0 : InitIpVisit limit cycleSecond visitLimitBanTime = Except.ok i0) :
    GetLen (run i0 ops) =
        (Finset.univ.filter fun p : Addr =>
          p.2.2.2 ≠ 0 ∧ (IsBan (run i0 ops) (dotted p)).1 ≠ 0).card ∧
      ∀ a b c : Fin 256, leafAt (run i0 ops).IpList a b c 0 = 0 := by
  have hz := zeroColumn_reachable _ _ _ i0 ops h0
  refine ⟨?_, hz⟩
  rw [GetLen_eq, card_filter_nested]
  have hind : ∀ a b c d : Fin 256,
      (if leafAt (run i0 ops).IpList a b c d = 0 then 0 else 1) =
        if ((a, b, c, d) : Addr).2.2.2 ≠ 0 ∧
          (IsBan (run i0 ops) (dotted (a, b, c, d))).1 ≠ 0 then 1 else 0 := by
    intro a b c d
    have h := leafOf_ne_zero_iff (run i0 ops) hz (a, b, c, d)
    unfold leafOf at h
    by_cases h0 : leafAt (run i0 ops).IpList a b c d = 0
    · rw [if_pos h0, if_neg (fun hh => (h.mpr hh) h0)]
    · rw [if_neg h0, if_pos (h.mp h0)]
  simp only [hind]

/-- C11, on a store with two recorded addresses: two tuples have a nonzero
answer of `IsBan`, and `GetLen` is 2. -/
theorem GetLen_counts_nonzero_witness :
    (Finset.univ.filter fun p : Addr =>
      p.2.2.2 ≠ 0 ∧
        (IsBan (run (emptyStore 3 60 10) [Op.add "10.0.0.1", Op.ban "9.0.0.1" (-5)])
          (dotted p)).1 ≠ 0).card = 2 :=
  (GetLen_counts_nonzero 3 60 10 (emptyStore 3 60 10)
    [Op.add "10.0.0.1", Op.ban "9.0.0.1" (-5)] (by rfl)).1.symm.trans (by decide!)

/-- C12: in a store reached from the empty store by `Add`, `AddBanTime` and
decay sweeps, `GetAll` is the list of the dotted texts of the octet tuples in
`liveAddrs`; that list is strictly ascending in the lexicographic order of
the tuples, holds exactly the tuples with nonzero fourth octet on whose
address `IsBan` answers a nonzero value, and each of its texts is accepted by
`splitIp` and parses back to its tuple; so `GetAll` has no duplicates and
every well-formed string with a nonzero answer of `IsBan` has its tuple
listed. -/
theorem GetAll_lists_nonzero_ascending (limit cycleSecond visitLimitBanTime : Int)
    (i0 : ipVisitS) (ops : List Op)
    (h0 : InitIpVisit limit cycleSecond visitLimitBanTime = Except.ok i0) :
    GetAll (run i0 ops) = (liveAddrs (run i0 ops).IpList).map dotted ∧
    (liveAddrs (run i0 ops).IpList).Pairwise addrLt ∧
    (∀ p : Addr, p ∈ liveAddrs (run i0 ops).IpList ↔
      p.2.2.2 ≠ 0 ∧ (IsBan (run i0 ops) (dotted p)).1 ≠ 0) ∧
    (∀ p ∈ liveAddrs (run i0 ops).IpList, splitIp (dotted p) = (octets p, 0)) ∧
    (GetAll (run i0 ops)).Nodup ∧
    (∀ s : String, (splitIp s).2 = 0 → (IsBan (run i0 ops) s).1 ≠ 0 →
      ∃ p ∈ liveAddrs (run i0 ops).IpList, (splitIp s).1 = octets p) := by
  have hz := zeroColumn_reachable _ _ _ i0 ops h0
  have hmem : ∀ p : Addr, p ∈ liveAddrs (run i0 ops).IpList ↔
      p.2.2.2 ≠ 0 ∧ (IsBan (run i0 ops) (dotted p)).1 ≠ 0 := fun p => by
    rw [mem_liveAddrs, leafOf_ne_zero_iff _ hz]
  have hsplit : ∀ p ∈ liveAddrs (run i0 ops).IpList, splitIp (dotted p) = (octets p, 0) :=
    fun p hp => splitIp_dotted p ((hmem p).mp hp).1
  have hpair := pairwise_liveAddrs (run i0 ops).IpList
  refine ⟨GetAll_eq _, hpair, hmem, hsplit, ?_, ?_⟩
  · rw [GetAll_eq]
    apply List.Nodup.map_on
    · intro p hp q hq he
      have h1 := hsplit p hp
      have h2 := hsplit q hq
      rw [he, h2] at h1
      exact octets_injective p q (congrArg Prod.fst h1).symm
    · exact List.Pairwise.imp
        (fun {p q} (hlt : addrLt p q) (he : p = q) => addrLt_irrefl q (he ▸ hlt)) hpair
  · intro s hs hne
    obtain ⟨p, -, hoct, hban⟩ := IsBan_of_valid (run i0 ops) s hs
    rw [hban] at hne
    exact ⟨p, (mem_liveAddrs _ p).mpr hne, hoct⟩

/-- C12, on a store where 10.0.0.1 was recorded before 9.0.0.1: the list is
ascending by number, not by text or by time. -/
theorem GetAll_lists_nonzero_ascending_witness :
    GetAll (run (emptyStore 3 60 10) [Op.add "10.0.0.1", Op.ban "9.0.0.1" (-5)]) =
      ["9.0.0.1", "10.0.0.1"] ∧
    (GetAll (run (emptyStore 3 60 10) [Op.add "10.0.0.1", Op.ban "9.0.0.1" (-5)])).Nodup ∧
    addrLt (9, 0, 0, 1) (10, 0, 0, 1) :=
  ⟨by decide!,
   (GetAll_lists_nonzero_ascending 3 60 10 (emptyStore 3 60 10)
     [Op.add "10.0.0.1", Op.ban "9.0.0.1" (-5)] (by rfl)).2.2.2.2.1,
   by decide⟩

/-- C13: `InitIpVisit` returns an error exactly when `limit` is outside
[0,127], or `cycleSecond` outside [1,3600], or `visitLimitBanTime` outside
[1,127]; otherwise it returns a store whose root array is all nil and whose
three configuration fields are the arguments. -/
theorem InitIpVisit_error_iff (limit cycleSecond visitLimitBanTime : Int) :
    ((∃ e, InitIpVisit limit cycleSecond visitLimitBanTime = Except.error e) ↔
      (limit < 0 ∨ 127 < limit) ∨ (cycleSecond < 1 ∨ 3600 < cycleSecond) ∨
        (visitLimitBanTime < 1 ∨ 127 < visitLimitBanTime)) ∧
    (¬ ((limit < 0 ∨ 127 < limit) ∨ (cycleSecond < 1 ∨ 3600 < cycleSecond) ∨
        (visitLimitBanTime < 1 ∨ 127 < visitLimitBanTime)) →
      ∃ i0, InitIpVisit limit cycleSecond visitLimitBanTime = Except.ok i0 ∧
        (∀ a, i0.IpList a = none) ∧ i0.limit = limit ∧ i0.cycleSecond = cycleSecond ∧
        i0.visitLimitBanTime = visitLimitBanTime) := by
  by_cases h1 : limit ≥ 0 ∧ limit ≤ 127
  · by_cases h2 : cycleSecond ≥ 1 ∧ cycleSecond ≤ 3600
    · by_cases h3 : visitLimitBanTime ≥ 1 ∧ visitLimitBanTime ≤ 127
      · unfold InitIpVisit
        simp only [h1, h2, h3, not_true_eq_false, if_false]
        refine ⟨⟨?_, fun h => by omega⟩, fun _ => ⟨_, rfl, fun _ => rfl, rfl, rfl, rfl⟩⟩
        rintro ⟨e, he⟩
        cases he
      · unfold InitIpVisit
        simp only [h1, h2, h3, not_true_eq_false, not_false_eq_true, if_false, if_true]
        exact ⟨⟨fun _ => by omega, fun _ => ⟨_, rfl⟩⟩, fun h => by omega⟩
    · unfold InitIpVisit
      simp only [h1, h2, not_true_eq_false, not_false_eq_true, if_false, if_true]
      exact ⟨⟨fun _ => by omega, fun _ => ⟨_, rfl⟩⟩, fun h => by omega⟩
  · unfold InitIpVisit
    simp only [h1, not_false_eq_true, if_true]
    exact ⟨⟨fun _ => by omega, fun _ => ⟨_, rfl⟩⟩, fun h => by omega⟩

/-- C13, on one valid configuration and one out-of-range value for each
argument. -/
theorem InitIpVisit_error_iff_witness :
    (∃ i0, InitIpVisit 3 60 10 = Except.ok i0 ∧ (∀ a, i0.IpList a = none) ∧ i0.limit = 3 ∧
      i0.cycleSecond = 60 ∧ i0.visitLimitBanTime = 10) ∧
    (∃ e, InitIpVisit (-1) 60 10 = Except.error e) ∧
    (∃ e, InitIpVisit 3 3601 10 = Except.error e) ∧
    (∃ e, InitIpVisit 3 60 0 = Except.error e) :=
  ⟨(InitIpVisit_error_iff 3 60 10).2 (by decide),
   (InitIpVisit_error_iff (-1) 60 10).1.mpr (by decide),
   (InitIpVisit_error_iff 3 3601 10).1.mpr (by decide),
   (InitIpVisit_error_iff 3 60 0).1.mpr (by decide)⟩

/-- C14: under a valid configuration `Add` returns `0` exactly on the strings
that `splitIp` rejects; on a well-formed address its result is nonzero
whatever the leaf held. -/
theorem Add_zero_iff_malformed (i : ipVisitS) (ipStr : String)
    (hL : 0 ≤ i.limit ∧ i.limit ≤ 127)
    (hB : 1 ≤ i.visitLimitBanTime ∧ i.visitLimitBanTime ≤ 127) :
    (Add i ipStr).2 = 0 ↔ (splitIp ipStr).2 ≠ 0 := by
  by_cases hs : (splitIp ipStr).2 = 0
  · rw [Add_result i ipStr hs]
    have := addVal_ne_zero i.limit i.visitLimitBanTime (thisIPGet i (splitIp ipStr).1) hL hB
    simp [hs, this]
  · rw [Add_malformed i ipStr hs]
    simp [hs]

/-- C14, on a fresh address at limit 0 (the first visit is already over the
limit) and on a malformed string. -/
theorem Add_zero_iff_malformed_witness :
    (Add (emptyStore 0 60 10) "10.0.0.1").2 ≠ 0 ∧ (Add (emptyStore 0 60 10) "1.2.3.0").2 = 0 :=
  ⟨fun h => absurd ((Add_zero_iff_malformed (emptyStore 0 60 10) "10.0.0.1" (by decide)
      (by decide)).mp h) (by decide),
   (Add_zero_iff_malformed (emptyStore 0 60 10) "1.2.3.0" (by decide) (by decide)).mpr
     (by decide)⟩

/-- C15: for a well-formed address B and an address A with other octets,
`Add` on A and `AddBanTime` on A with any ban time leave the answer of `IsBan`
on B as it was (also when the string of A is malformed, where the calls do
nothing); and the allocation done by `nil2Create` changes the answer of
`IsBan` on no address at all. -/
theorem writes_are_local (i : ipVisitS) (sA sB : String) (banTime : Int)
    (hB : (splitIp sB).2 = 0)
    (hne : (splitIp sA).1 ≠ (splitIp sB).1) :
    IsBan (Add i sA).1 sB = IsBan i sB ∧
    IsBan (AddBanTime i sA banTime).1 sB = IsBan i sB ∧
    ∀ s : String, IsBan (nil2Create i (splitIp sA).1) s = IsBan i s := by
  refine ⟨?_, ?_, fun s => ?_⟩
  · rw [IsBan_valid _ sB hB, IsBan_valid _ sB hB, Add_other i sA sB hB (fun h => hne h.2)]
  · rw [IsBan_valid _ sB hB, IsBan_valid _ sB hB,
      AddBanTime_other i sA sB banTime hB (fun h => hne h.2)]
  · rw [IsBan_eq, IsBan_eq]
    unfold thisIPGet
    rw [leafAt_nil2Create]

/-- C15, on two addresses that share their first three octets: the second
keeps its count while the first is visited and then banned. -/
theorem writes_are_local_witness :
    IsBan (Add (Add (emptyStore 3 60 10) "10.0.0.2").1 "10.0.0.1").1 "10.0.0.2" = (1, true) ∧
    IsBan (AddBanTime (Add (emptyStore 3 60 10) "10.0.0.2").1 "10.0.0.1" (-128)).1 "10.0.0.2" =
      (1, true) :=
  ⟨((writes_are_local (Add (emptyStore 3 60 10) "10.0.0.2").1 "10.0.0.1" "10.0.0.2" (-128)
      (by decide) (by decide)).1).trans (by decide),
   ((writes_are_local (Add (emptyStore 3 60 10) "10.0.0.2").1 "10.0.0.1" "10.0.0.2" (-128)
      (by decide) (by decide)).2.1).trans (by decide)⟩

/-- C16: as amended, after one decay sweep an array of level 2, 3 or 4 is
allocated exactly when a leaf beneath it was nonzero when the sweep began;
that leaf may have decayed to zero in this very sweep. -/
theorem tick_keeps_branches_live_before (ip : ipVisitS) :
    (∀ a, alloc2 (CheckIPListTick ip).IpList a ↔ ∃ b c d, leafAt ip.IpList a b c d ≠ 0) ∧
    (∀ a b, alloc3 (CheckIPListTick ip).IpList a b ↔ ∃ c d, leafAt ip.IpList a b c d ≠ 0) ∧
    (∀ a b c, alloc4 (CheckIPListTick ip).IpList a b c ↔ ∃ d, leafAt ip.IpList a b c d ≠ 0) :=
  ⟨alloc2_tick ip, alloc3_tick ip, alloc4_tick ip⟩

/-- C16, as stated, fails: after one visit of 10.0.0.1 and one sweep the
three arrays on the path of the address are still allocated and hold no
nonzero leaf. -/
theorem tick_leaves_empty_branch :
    ¬ noEmptyBranch (CheckIPListTick (Add (emptyStore 3 60 10) "10.0.0.1").1).IpList := by
  rintro ⟨h2, -, -⟩
  have halloc : alloc2 (CheckIPListTick (Add (emptyStore 3 60 10) "10.0.0.1").1).IpList 10 :=
    (alloc2_tick _ 10).mpr ⟨0, 0, 1, by decide⟩
  obtain ⟨b, c, d, hne⟩ := h2 10 halloc
  apply hne
  rw [leafAt_tick, Add_leafAt _ _ (by decide)]
  split_ifs
  · decide
  · exact age_zero

/-- C17: evaluation of a history that breaks the bound by the visit limit:
under limit 3, two calls of `AddBanTime` with `-100` on one address leave it
with the value `56`. -/
theorem value_above_limit :
    (InitIpVisit 3 60 10 = Except.ok (emptyStore 3 60 10)) ∧
    IsBan (run (emptyStore 3 60 10) [Op.ban "10.0.0.1" (-100), Op.ban "10.0.0.1" (-100)])
      "10.0.0.1" = (56, true) ∧
    ¬ ((56 : Int) ≤ (run (emptyStore 3 60 10)
      [Op.ban "10.0.0.1" (-100), Op.ban "10.0.0.1" (-100)]).limit) := by
  refine ⟨rfl, by decide, by decide⟩

/-- C18: with no call in between, an address that holds `v` in [-127,127]
holds after `k` sweeps the value `k` steps closer to `0`, and `0` from the
`|v|`-th sweep on: a ban of `m` minutes answers `-(m - k)` for `k < m` and `0`
afterwards, a count `n` answers `n - k` for `k < n` and `0` afterwards. -/
theorem ticks_count_down (ip : ipVisitS) (ipStr : String) (v : Int) (k : Nat)
    (hv : -127 ≤ v ∧ v ≤ 127) (h : IsBan ip ipStr = (v, true)) :
    IsBan (ticks k ip) ipStr =
      (if (k : Int) < |v| then (if v < 0 then v + k else v - k) else 0, true) := by
  obtain ⟨hs, hget⟩ := IsBan_true ip ipStr v h
  rw [IsBan_valid _ ipStr hs]
  unfold thisIPGet at hget ⊢
  rw [leafAt_ticks, hget, age_iterate k v hv]

/-- C18, on a ban of 5 minutes (after 2, 5 and 9 sweeps) and on a count of 3
(after 1 and 3 sweeps). -/
theorem ticks_count_down_witness :
    IsBan (ticks 2 (AddBanTime (emptyStore 3 60 10) "10.0.0.1" (-5)).1) "10.0.0.1" = (-3, true) ∧
    IsBan (ticks 5 (AddBanTime (emptyStore 3 60 10) "10.0.0.1" (-5)).1) "10.0.0.1" = (0, true) ∧
    IsBan (ticks 9 (AddBanTime (emptyStore 3 60 10) "10.0.0.1" (-5)).1) "10.0.0.1" = (0, true) ∧
    IsBan (ticks 1 (AddTimes (emptyStore 3 60 10) "10.0.0.1" 3).1) "10.0.0.1" = (2, true) ∧
    IsBan (ticks 3 (AddTimes (emptyStore 3 60 10) "10.0.0.1" 3).1) "10.0.0.1" = (0, true) :=
  ⟨(ticks_count_down _ "10.0.0.1" (-5) 2 (by decide) (by decide)).trans (by decide),
   (ticks_count_down _ "10.0.0.1" (-5) 5 (by decide) (by decide)).trans (by decide),
   (ticks_count_down _ "10.0.0.1" (-5) 9 (by decide) (by decide)).trans (by decide),
   (ticks_count_down _ "10.0.0.1" 3 1 (by decide) (by decide)).trans (by decide),
   (ticks_count_down _ "10.0.0.1" 3 3 (by decide) (by decide)).trans (by decide)⟩

/-- C19: in a store whose leaves all lie in [-127,127] (no permanent ban) and
have absolute value at most `M`, after `M + 1` decay sweeps in a row every
slot of the root array is nil, `GetLen` is `0` and `GetAll` is empty; with
`M = 0` this is one sweep over a store whose leaves are all zero. -/
theorem all_decayed_is_reclaimed (ip : ipVisitS) (M : Nat)
    (hrange : ∀ a b c d, -127 ≤ leafAt ip.IpList a b c d ∧ leafAt ip.IpList a b c d ≤ 127)
    (hM : ∀ a b c d, |leafAt ip.IpList a b c d| ≤ (M : Int)) :
    (∀ a, (ticks (M + 1) ip).IpList a = none) ∧ GetLen (ticks (M + 1) ip) = 0 ∧
      GetAll (ticks (M + 1) ip) = [] := by
  have hzero : ∀ a b c d, leafAt (ticks M ip).IpList a b c d = 0 := by
    intro a b c d
    rw [leafAt_ticks, age_iterate M _ (hrange a b c d), if_neg]
    exact not_lt.mpr (hM a b c d)
  have hroot : ∀ a, (ticks (M + 1) ip).IpList a = none := by
    intro a
    rw [ticks_succ]
    exact tick_of_all_zero _ hzero a
  exact ⟨hroot, get_of_all_zero _ (leafAt_of_root_nil _ hroot)⟩

/-- C19, on a store with one address visited once (`M = 1`): two sweeps
reclaim everything. -/
theorem all_decayed_is_reclaimed_witness :
    (∀ a, (ticks 2 (Add (emptyStore 3 60 10) "10.0.0.1").1).IpList a = none) ∧
    GetLen (ticks 2 (Add (emptyStore 3 60 10) "10.0.0.1").1) = 0 ∧
    GetAll (ticks 2 (Add (emptyStore 3 60 10) "10.0.0.1").1) = [] :=
  all_decayed_is_reclaimed (Add (emptyStore 3 60 10) "10.0.0.1").1 1
    (fun a b c d => by
      rw [Add_leafAt _ _ (by decide)]
      split_ifs
      · decide
      · rw [show leafAt (emptyStore 3 60 10).IpList a b c d = 0 from rfl]
        decide)
    (fun a b c d => by
      rw [Add_leafAt _ _ (by decide)]
      split_ifs
      · decide
      · rw [show leafAt (emptyStore 3 60 10).IpList a b c d = 0 from rfl]
        decide)

/-- C20: on a target whose references take `p` bytes, `GetSizeOf` is
`256 * p` for the root array, plus `256 * p` for the root and for each
allocated array of levels 2 and 3, plus `256` for each allocated leaf array,
wrapped at the width of a `uintptr`; for `p = 8` nothing wraps.  An empty
store gives `512 * p`, and one `Add` on a well-formed address in an empty store
adds `2 * 256 * p + 256`. -/
theorem GetSizeOf_counts_allocated (p : Nat) (ip : ipVisitS)
    (limit cycleSecond visitLimitBanTime : Int) (ipStr : String)
    (h : (splitIp ipStr).2 = 0) :
    GetSizeOf p ip = specSize p ip.IpList % 2 ^ (8 * p) ∧
    GetSizeOf 8 ip = specSize 8 ip.IpList ∧
    GetSizeOf p (emptyStore limit cycleSecond visitLimitBanTime) = (512 * p) % 2 ^ (8 * p) ∧
    GetSizeOf p (Add (emptyStore limit cycleSecond visitLimitBanTime) ipStr).1 =
      (512 * p + (2 * 256 * p + 256)) % 2 ^ (8 * p) := by
  have hgen : ∀ (q : Nat) (i : ipVisitS), GetSizeOf q i = specSize q i.IpList % 2 ^ (8 * q) := by
    intro q i
    rw [GetSizeOf_eq_weights, sum_weights]
    unfold specSize
    generalize count2 i.IpList = c2
    generalize count3 i.IpList = c3
    generalize count4 i.IpList = c4
    have e : 256 * q + (256 * q * (1 + c2 + c3) + 256 * c4) =
        256 * q + 256 * q * (1 + c2 + c3) + 256 * c4 := by ring
    rw [e]
  refine ⟨hgen p ip, ?_, ?_, ?_⟩
  · rw [hgen 8 ip]
    apply Nat.mod_eq_of_lt
    obtain ⟨b2, b3, b4⟩ := count_bounds ip.IpList
    unfold specSize
    generalize count2 ip.IpList = c2 at b2 ⊢
    generalize count3 ip.IpList = c3 at b3 ⊢
    generalize count4 ip.IpList = c4 at b4 ⊢
    have hw : (2 : Nat) ^ (8 * 8) = 18446744073709551616 := by norm_num
    rw [hw]
    omega
  · rw [hgen]
    obtain ⟨e2, e3, e4⟩ := counts_nilArray
    have hs : specSize p (emptyStore limit cycleSecond visitLimitBanTime).IpList = 512 * p := by
      unfold specSize emptyStore
      rw [e2, e3, e4]
      omega
    rw [hs]
  · rw [hgen]
    obtain ⟨z, hz⟩ := Add_empty_onePath limit cycleSecond visitLimitBanTime ipStr h
    obtain ⟨e2, e3, e4⟩ := counts_onePath (oct (splitIp ipStr).1 0) (oct (splitIp ipStr).1 1)
      (oct (splitIp ipStr).1 2) z
    have hs : specSize p (Add (emptyStore limit cycleSecond visitLimitBanTime) ipStr).1.IpList =
        512 * p + (2 * 256 * p + 256) := by
      unfold specSize
      rw [hz, e2, e3, e4]
      omega
    rw [hs]

/-- C20, on a 64-bit target: an empty store reports 4096 bytes, and after one
visit of 10.0.0.1 the estimate is 4096 + 4352. -/
theorem GetSizeOf_counts_allocated_witness :
    GetSizeOf 8 (emptyStore 3 60 10) = 4096 ∧
    GetSizeOf 8 (Add (emptyStore 3 60 10) "10.0.0.1").1 = 4096 + 4352 :=
  ⟨((GetSizeOf_counts_allocated 8 (emptyStore 3 60 10) 3 60 10 "10.0.0.1"
      (by decide)).2.2.1).trans (by norm_num),
   ((GetSizeOf_counts_allocated 8 (emptyStore 3 60 10) 3 60 10 "10.0.0.1"
      (by decide)).2.2.2).trans (by norm_num)⟩

end ipmanage
